import Mathlib

/-!
Verification of the ADP routing engine (`adp_routing_logic.py`).

The Python module is embedded shallowly:

* Python floats become `Rat` (the module only multiplies, divides, compares
  and sums these values, all of which are exact on the values that occur).
* `time.time()` becomes an explicit `now : Rat` input, and the two random
  sources (`random.random() > 0.05` inside `perform_health_check`, and
  `random.uniform` / `random.choice` inside `calculate_weighted_selection`)
  become oracle streams indexed by a running counter, so that every theorem
  quantifies over all possible draws.
* The mutable `ADPRouter` object becomes a record threaded through each
  operation; dictionaries become association lists (registry) or total
  functions with the dictionary default (pools, round-robin cursors).
* A Python `KeyError` (registry subscript on a missing key) is modelled by
  an `Option`-valued result: `none` means the call raised.
* `current_load` and `max_concurrent` are `Nat`, following the data model
  (a non-negative count and a positive capacity); `max(0, load - 1)` in
  `complete_request` is exactly truncated subtraction.
-/

namespace ADP

inductive NMStatus where
  | HEALTHY
  | DEGRADED
  | UNAVAILABLE
deriving DecidableEq, Repr

inductive Domain where
  | MEDICAL
  | CARDIOLOGY
  | CANCER
  | NEUROLOGY
  | AI_COMPLIANCE
deriving DecidableEq, Repr

/-- The `.value` string of each `Domain` member. -/
def Domain.val : Domain → String
  | .MEDICAL => "medical"
  | .CARDIOLOGY => "cardiology"
  | .CANCER => "cancer"
  | .NEUROLOGY => "neurology"
  | .AI_COMPLIANCE => "ai_compliance"

/-- Iteration order of `for domain in Domain` in `get_routing_stats`. -/
def Domain.all : List Domain :=
  [.MEDICAL, .CARDIOLOGY, .CANCER, .NEUROLOGY, .AI_COMPLIANCE]

structure NarrowModel where
  id : String
  domain : Domain
  endpoint : String
  capabilities : List String
  weight : Rat
  status : NMStatus := .HEALTHY
  response_time_avg : Rat := 0
  accuracy_score : Rat := 9/10
  last_health_check : Rat := 0
  current_load : Nat := 0
  max_concurrent : Nat := 10
deriving DecidableEq, Repr

structure RoutingRequest where
  message_id : String
  domain : Domain
  priority : String := "normal"
  preferred_nm_id : Option String := none
  require_validation : Bool := true
deriving DecidableEq, Repr

/-- The dictionary returned by `route_request`.  `error` and
`total_available` are `Option`s because only some return sites put the
corresponding keys into the dictionary. -/
structure RouteResult where
  primary : Option String
  validation : List String
  routing_method : String
  error : Option String := none
  total_available : Option Nat := none
deriving DecidableEq, Repr

structure ADPRouter where
  nm_registry : List (String × NarrowModel) := []
  domain_pools : Domain → List String := fun _ => []
  round_robin_indices : Domain → Nat := fun _ => 0
  health_check_interval : Rat := 30

/-- The state built by `ADPRouter.__init__`. -/
def ADPRouter.init : ADPRouter := {}

/-- External inputs of one routing call: the wall clock and the three
random streams, each consumed at a running counter. -/
structure Env where
  now : Rat
  reachable : Nat → Bool
  unif : Nat → Rat
  choiceF : Nat → Nat

/-- Dictionary lookup `self.nm_registry[id]` as an association-list find. -/
def regLookup (reg : List (String × NarrowModel)) (id : String) : Option NarrowModel :=
  (reg.find? (fun p => p.1 == id)).map Prod.snd

/-- Dictionary assignment `self.nm_registry[id] = nm`: replace the entry in
place if the key exists, otherwise append it. -/
def regInsert : List (String × NarrowModel) → String → NarrowModel →
    List (String × NarrowModel)
  | [], id, nm => [(id, nm)]
  | p :: rest, id, nm =>
    if p.1 == id then (id, nm) :: rest else p :: regInsert rest id nm

def setNM (r : ADPRouter) (id : String) (nm : NarrowModel) : ADPRouter :=
  { r with nm_registry := regInsert r.nm_registry id nm }

/-- Current load of a worker (0 for an unknown id, only used in theorem
statements for ids that are registered). -/
def loadOf (r : ADPRouter) (id : String) : Nat :=
  match regLookup r.nm_registry id with
  | some nm => nm.current_load
  | none => 0

/-- `register_nm`.  A domain key exists in the `domain_pools` dictionary
iff its pool is nonempty: pools only ever grow, and a freshly created key
immediately receives the worker id; likewise `round_robin_indices` is read
only through `.get(domain, 0)`, so the total function with default 0 is
observationally the dictionary. -/
def register_nm (r : ADPRouter) (nm : NarrowModel) : ADPRouter :=
  let reg := regInsert r.nm_registry nm.id nm
  let pool := r.domain_pools nm.domain
  let idx := fun d =>
    if d = nm.domain ∧ pool.isEmpty then 0 else r.round_robin_indices d
  let pools := fun d =>
    if d = nm.domain then (if nm.id ∈ pool then pool else pool ++ [nm.id])
    else r.domain_pools d
  { r with nm_registry := reg, domain_pools := pools, round_robin_indices := idx }

/-- `perform_health_check`.  `is_healthy` is the oracle value standing for
`random.random() > 0.05`. -/
def perform_health_check (r : ADPRouter) (nm_id : String) (now : Rat)
    (is_healthy : Bool) : ADPRouter × Bool :=
  match regLookup r.nm_registry nm_id with
  | none => (r, false)
  | some nm =>
    let st :=
      if is_healthy ∧ nm.current_load < nm.max_concurrent then NMStatus.HEALTHY
      else if is_healthy then NMStatus.DEGRADED
      else NMStatus.UNAVAILABLE
    let nm1 := { nm with status := st, last_health_check := now }
    ({ r with nm_registry := regInsert r.nm_registry nm_id nm1 },
     st == NMStatus.HEALTHY)

/-- The loop body of `get_healthy_nms_in_domain`, scanning a pool in order,
lazily refreshing stale workers and collecting the Healthy/Degraded ones.
`h` is the cursor into the health-randomness stream. -/
def healthyScan (env : Env) : List String → ADPRouter → Nat →
    List String × ADPRouter × Nat
  | [], r, h => ([], r, h)
  | id :: rest, r, h =>
    match regLookup r.nm_registry id with
    | none => healthyScan env rest r h
    | some nm =>
      let s1 :=
        if env.now - nm.last_health_check > r.health_check_interval then
          ((perform_health_check r id env.now (env.reachable h)).1, h + 1)
        else (r, h)
      let keep : Bool :=
        match regLookup s1.1.nm_registry id with
        | some nm1 =>
          nm1.status == NMStatus.HEALTHY || nm1.status == NMStatus.DEGRADED
        | none => false
      let s2 := healthyScan env rest s1.1 s1.2
      (if keep then id :: s2.1 else s2.1, s2.2.1, s2.2.2)

/-- `get_healthy_nms_in_domain`.  The missing-domain early return is the
empty-pool case of the scan. -/
def get_healthy_nms_in_domain (env : Env) (r : ADPRouter) (h : Nat)
    (domain : Domain) : List String × ADPRouter × Nat :=
  healthyScan env (r.domain_pools domain) r h

/-- The builtin `min` on two floats. -/
def ratMin (a b : Rat) : Rat := if a ≤ b then a else b

/-- The builtin `max` on two floats. -/
def ratMax (a b : Rat) : Rat := if a ≤ b then b else a

/-- The per-candidate effective weight computed inside
`calculate_weighted_selection`.  Division is `Rat` division; by the data
model `max_concurrent` is a positive integer (Python would raise on 0). -/
def effectiveWeight (nm : NarrowModel) : Rat :=
  let w := nm.weight
  let w := if nm.response_time_avg > 0 then w * ratMin 1 (1000 / nm.response_time_avg) else w
  let w := w * nm.accuracy_score
  let w := w * ratMax (1/10)
      (1 - (nm.current_load : Rat) / (nm.max_concurrent : Rat))
  if nm.status = NMStatus.DEGRADED then w * (1/2) else w

/-- The `weighted_candidates` list; `none` models the `KeyError` raised on
the first unregistered id. -/
def weightsOf (reg : List (String × NarrowModel)) :
    List String → Option (List (String × Rat))
  | [] => some []
  | id :: rest =>
    match regLookup reg id with
    | none => none
    | some nm =>
      match weightsOf reg rest with
      | none => none
      | some ws => some ((id, effectiveWeight nm) :: ws)

/-- The cumulative walk of the weighted random draw: return the first
candidate whose cumulative weight reaches the drawn value. -/
def walkSel : List (String × Rat) → Rat → Rat → Option String
  | [], _, _ => none
  | (id, w) :: rest, rv, cum =>
    if rv ≤ cum + w then some id else walkSel rest rv (cum + w)

/-- `calculate_weighted_selection`.  `rv` stands for
`random.uniform(0, total_weight)` and `c` indexes `random.choice`; the
outer `Option` is the `KeyError` effect, the inner one is the `None`
returned on an empty candidate list. -/
def calculate_weighted_selection (r : ADPRouter) (nm_ids : List String)
    (rv : Rat) (c : Nat) : Option (Option String) :=
  if nm_ids.isEmpty then some none
  else
    match weightsOf r.nm_registry nm_ids with
    | none => none
    | some wc =>
      let total := (wc.map Prod.snd).sum
      if total = 0 then some (nm_ids.get? (c % nm_ids.length))
      else
        match walkSel wc rv 0 with
        | some id => some (some id)
        | none => some ((wc.getLast?).map Prod.fst)

/-- `round_robin_selection`. -/
def round_robin_selection (r : ADPRouter) (nm_ids : List String)
    (domain : Domain) : Option String × ADPRouter :=
  if nm_ids.isEmpty then (none, r)
  else
    let ci := r.round_robin_indices domain
    let ci := if ci ≥ nm_ids.length then 0 else ci
    (nm_ids.get? ci,
     { r with round_robin_indices :=
        fun d => if d = domain then (ci + 1) % nm_ids.length
                 else r.round_robin_indices d })

/-- The `while` loop of `_select_validation_nms`: weighted-select from the
shrinking candidate list until `max_validators` validators are chosen, a
falsy or duplicate selection breaks, or candidates run out.  The router is
not modified by the loop (weighted selection only reads the registry).

The loop guard keeps `validators.length` below `max_validators`, and each
iteration appends exactly one validator, so the loop runs at most
`mv - validators.length` times; the `fuel` argument makes that bound
structural.  At the exact fuel `mv - validators.length` the fuel-exhausted
case coincides with the guard-false exit: fuel 0 means
`validators.length ≥ mv ≥ min mv candidates.length`. -/
def valLoop (env : Env) (r : ADPRouter) (mv : Nat) :
    Nat → Nat → List String → List String → Option (List String × Nat)
  | 0, i, validators, _ => some (validators, i)
  | fuel + 1, i, validators, candidates =>
    if validators.length < min mv candidates.length then
      match calculate_weighted_selection r candidates (env.unif i) (env.choiceF i) with
      | none => none
      | some none => some (validators, i + 1)
      | some (some v) =>
        if v ≠ "" ∧ v ∉ validators then
          valLoop env r mv fuel (i + 1) (validators ++ [v]) (candidates.erase v)
        else some (validators, i + 1)
    else some (validators, i)

/-- `_select_validation_nms`. -/
def select_validation_nms (env : Env) (r : ADPRouter) (h i : Nat)
    (req : RoutingRequest) (exclude : List String) (max_validators : Nat) :
    Option (List String × ADPRouter × Nat × Nat) :=
  let s := get_healthy_nms_in_domain env r h req.domain
  let candidates := s.1.filter (fun id => !exclude.contains id)
  if candidates.isEmpty then some ([], s.2.1, s.2.2, i)
  else
    match valLoop env s.2.1 max_validators max_validators i [] candidates with
    | none => none
    | some (vs, i1) => some (vs, s.2.1, s.2.2, i1)

/-- The priority dispatch of `route_request` (step 3 of the spec), pulled
out of the main body; it consumes selection randomness only. -/
def selectPrimary (env : Env) (r : ADPRouter) (i : Nat) (priority : String)
    (domain : Domain) (available : List String) :
    Option (Option String × String × ADPRouter × Nat) :=
  if priority = "urgent" then
    match calculate_weighted_selection r available (env.unif i) (env.choiceF i) with
    | none => none
    | some p => some (p, "weighted_urgent", r, i + 1)
  else if priority = "high" then
    let rr := round_robin_selection r available domain
    match rr.1 with
    | none => none
    | some rrc =>
      match calculate_weighted_selection rr.2 available (env.unif i) (env.choiceF i) with
      | none => none
      | some none => none
      | some (some wc) =>
        let top := if wc = rrc then [rrc] else [rrc, wc]
        match calculate_weighted_selection rr.2 top (env.unif (i + 1)) (env.choiceF (i + 1)) with
        | none => none
        | some p => some (p, "hybrid_high", rr.2, i + 2)
  else
    let rr := round_robin_selection r available domain
    some (rr.1, "round_robin_normal", rr.2, i)

/-- The load-tracking block of `route_request`: bump the primary if truthy
(raising on a missing key), then bump each validation worker guarded by a
registry membership test. -/
def incrLoadGuarded (r : ADPRouter) (v : String) : ADPRouter :=
  match regLookup r.nm_registry v with
  | some nm => setNM r v { nm with current_load := nm.current_load + 1 }
  | none => r

def applyLoads (r : ADPRouter) (primary : Option String)
    (validation : List String) : Option ADPRouter :=
  let step1 : Option ADPRouter :=
    match primary with
    | none => some r
    | some p =>
      if p = "" then some r
      else
        match regLookup r.nm_registry p with
        | none => none
        | some nm => some (setNM r p { nm with current_load := nm.current_load + 1 })
  step1.map (fun r1 => validation.foldl incrLoadGuarded r1)

/-- Steps 2-6 of `route_request`: pool resolution, priority-based primary
selection, validation-set selection, load accounting.  `exclude=[None]`
filters nothing out of a string list, hence the `none` case maps to `[]`. -/
def routeMain (env : Env) (r : ADPRouter) (h i : Nat) (req : RoutingRequest) :
    Option (RouteResult × ADPRouter × Nat × Nat) :=
  let s := get_healthy_nms_in_domain env r h req.domain
  if s.1.isEmpty then
    some ({ primary := none, validation := [], routing_method := "no_available_nms",
            error := some ("No healthy NMs available in domain " ++ req.domain.val) },
          s.2.1, s.2.2, i)
  else
    match selectPrimary env s.2.1 i req.priority req.domain s.1 with
    | none => none
    | some (primary, method, r2, i2) =>
      let excl := match primary with | some p => [p] | none => []
      match (if req.require_validation then
               select_validation_nms env r2 s.2.2 i2 req excl 2
             else some ([], r2, s.2.2, i2)) with
      | none => none
      | some (vnms, r3, h3, i3) =>
        match applyLoads r3 primary vnms with
        | none => none
        | some r4 =>
          some ({ primary := primary, validation := vnms, routing_method := method,
                  total_available := some s.1.length }, r4, h3, i3)

/-- `route_request`.  The preferred-worker shortcut returns before the
load-tracking block; every fall-through lands in `routeMain`. -/
def route_request (env : Env) (r : ADPRouter) (h i : Nat)
    (req : RoutingRequest) : Option (RouteResult × ADPRouter × Nat × Nat) :=
  match req.preferred_nm_id with
  | some pid =>
    if pid = "" then routeMain env r h i req
    else
      match regLookup r.nm_registry pid with
      | none => routeMain env r h i req
      | some nm =>
        if nm.status = NMStatus.HEALTHY ∨ nm.status = NMStatus.DEGRADED then
          if req.require_validation then
            match select_validation_nms env r h i req [pid] 2 with
            | none => none
            | some (vnms, r1, h1, i1) =>
              some ({ primary := some pid, validation := vnms,
                      routing_method := "preferred_with_validation" }, r1, h1, i1)
          else
            some ({ primary := some pid, validation := [],
                    routing_method := "preferred_only" }, r, h, i)
        else routeMain env r h i req
  | none => routeMain env r h i req

/-- `complete_request`: decrement, floored at zero. -/
def complete_request (r : ADPRouter) (nm_id : String) : ADPRouter :=
  match regLookup r.nm_registry nm_id with
  | none => r
  | some nm => setNM r nm_id { nm with current_load := nm.current_load - 1 }

structure DomainStats where
  total : Nat
  healthy : Nat
  degraded : Nat
  unavailable : Nat
deriving DecidableEq, Repr

structure RoutingStats where
  total_nms : Nat
  domains : Domain → DomainStats
  overall_health : Rat

/-- The generator-sum `sum(1 for nm_id in domain_nms if nm_id in registry
and status == st)` of `get_routing_stats`. -/
def domainStatusCount (r : ADPRouter) (d : Domain) (st : NMStatus) : Nat :=
  ((r.domain_pools d).filter (fun id =>
    match regLookup r.nm_registry id with
    | some nm => nm.status == st
    | none => false)).length

/-- `get_routing_stats`. -/
def get_routing_stats (r : ADPRouter) : RoutingStats :=
  let healthy_count := (Domain.all.map (fun d => domainStatusCount r d .HEALTHY)).sum
  { total_nms := r.nm_registry.length
    domains := fun d =>
      { total := (r.domain_pools d).length
        healthy := domainStatusCount r d .HEALTHY
        degraded := domainStatusCount r d .DEGRADED
        unavailable := domainStatusCount r d .UNAVAILABLE }
    overall_health :=
      if r.nm_registry.length > 0 then
        (healthy_count : Rat) / (r.nm_registry.length : Rat)
      else 0 }

/-- Following the words of the spec, for comparison with the reported
ratio: the healthy-worker count across all registered workers. -/
def registryHealthyCount (r : ADPRouter) : Nat :=
  (r.nm_registry.filter (fun p => p.2.status == NMStatus.HEALTHY)).length

/-- All pool members across the domain enumeration, with multiplicity. -/
def allPoolIds (r : ADPRouter) : List String :=
  (Domain.all.map r.domain_pools).flatten

/-- The registry-coherence invariant of claim C10: every id in any pool is
a registry key. -/
def PoolsRegistered (r : ADPRouter) : Prop :=
  ∀ d id, id ∈ r.domain_pools d → (regLookup r.nm_registry id).isSome

/-- The guard of the preferred-worker shortcut fails: there is no eligible
preferred worker, so `route_request` falls through to pool resolution. -/
def preferredIneligible (r : ADPRouter) (req : RoutingRequest) : Prop :=
  ∀ pid, req.preferred_nm_id = some pid → pid ≠ "" →
    ∀ nm, regLookup r.nm_registry pid = some nm → nm.status = NMStatus.UNAVAILABLE

/-- Router states reachable from `ADPRouter.init` through the public
interface (`register_nm`, `route_request`, `complete_request`;
`get_routing_stats` does not modify the router). -/
inductive Reachable : ADPRouter → Prop where
  | init : Reachable ADPRouter.init
  | register (r : ADPRouter) (nm : NarrowModel) :
      Reachable r → Reachable (register_nm r nm)
  | route (r : ADPRouter) (env : Env) (h i : Nat) (req : RoutingRequest)
      (res : RouteResult) (r' : ADPRouter) (h' i' : Nat) :
      Reachable r → route_request env r h i req = some (res, r', h', i') →
      Reachable r'
  | complete (r : ADPRouter) (id : String) :
      Reachable r → Reachable (complete_request r id)

/-! ### Concrete states used by counterexamples and witnesses -/

def nmA : NarrowModel :=
  { id := "a", domain := .MEDICAL, endpoint := "ea", capabilities := [],
    weight := 1/2, status := .HEALTHY, response_time_avg := 0, accuracy_score := 1,
    last_health_check := 0, current_load := 0, max_concurrent := 10 }

def nmB : NarrowModel := { nmA with id := "b", endpoint := "eb" }

def env0 : Env :=
  { now := 0, reachable := fun _ => true, unif := fun _ => 0, choiceF := fun _ => 0 }

def envF : Env :=
  { now := 0, reachable := fun _ => false, unif := fun _ => 0, choiceF := fun _ => 0 }

def r0 : ADPRouter := register_nm (register_nm ADPRouter.init nmA) nmB

def req0 : RoutingRequest :=
  { message_id := "m", domain := .MEDICAL, priority := "normal",
    preferred_nm_id := none, require_validation := true }

def rte0 : Option (RouteResult × ADPRouter × Nat × Nat) :=
  route_request env0 r0 0 0 req0

def res0 : RouteResult :=
  (rte0.map Prod.fst).getD { primary := none, validation := [], routing_method := "" }

def r0x : ADPRouter := (rte0.map (fun t => t.2.1)).getD ADPRouter.init

def h0x : Nat := (rte0.map (fun t => t.2.2.1)).getD 0

def i0x : Nat := (rte0.map (fun t => t.2.2.2)).getD 0

def nmA1 : NarrowModel := { nmA with current_load := 1 }

def rP : ADPRouter := register_nm ADPRouter.init nmA1

def reqP : RoutingRequest := { req0 with preferred_nm_id := some "a" }

def nmA2 : NarrowModel := { nmA with domain := .CARDIOLOGY }

def r8 : ADPRouter := register_nm (register_nm ADPRouter.init nmA) nmA2

def nmU : NarrowModel := { nmA with status := .UNAVAILABLE }

def rU : ADPRouter := register_nm ADPRouter.init nmU

def r1w : ADPRouter := register_nm ADPRouter.init nmA

def nmZa : NarrowModel := { nmA with weight := 0 }

def nmZb : NarrowModel := { nmA with id := "b", weight := 0 }

def rZ : ADPRouter := register_nm (register_nm ADPRouter.init nmZa) nmZb

/-! ### Registry lemmas -/

lemma regLookup_cons (p : String × NarrowModel) (rest : List (String × NarrowModel))
    (id : String) :
    regLookup (p :: rest) id = if p.1 == id then some p.2 else regLookup rest id := by
  simp only [regLookup, List.find?]
  cases h : p.1 == id <;> simp [h]

lemma regLookup_insert (reg : List (String × NarrowModel)) (id : String)
    (nm : NarrowModel) (id2 : String) :
    regLookup (regInsert reg id nm) id2 =
      if id2 = id then some nm else regLookup reg id2 := by
  induction reg with
  | nil =>
    by_cases h : id2 = id <;>
      simp [regInsert, regLookup_cons, regLookup, h, beq_iff_eq, Ne.symm]
  | cons p rest ih =>
    simp only [regInsert]
    by_cases hp : p.1 == id
    · rw [if_pos hp]
      have hp' : p.1 = id := by simpa [beq_iff_eq] using hp
      by_cases h2 : id2 = id
      · simp [regLookup_cons, h2, beq_iff_eq]
      · simp [regLookup_cons, h2, hp', beq_iff_eq, Ne.symm h2]
    · rw [if_neg hp]
      have hp' : p.1 ≠ id := by simpa [beq_iff_eq] using hp
      by_cases h2 : id2 = id
      · subst h2
        simp [regLookup_cons, beq_iff_eq, hp', ih]
      · simp [regLookup_cons, ih, h2]

lemma regLookup_insert_isSome (reg : List (String × NarrowModel)) (id : String)
    (nm : NarrowModel) (id2 : String)
    (h : (regLookup reg id2).isSome) :
    (regLookup (regInsert reg id nm) id2).isSome := by
  rw [regLookup_insert]
  split <;> simp [h]

@[simp] lemma setNM_domain_pools (r : ADPRouter) (id : String) (nm : NarrowModel) :
    (setNM r id nm).domain_pools = r.domain_pools := rfl

@[simp] lemma setNM_round_robin (r : ADPRouter) (id : String) (nm : NarrowModel) :
    (setNM r id nm).round_robin_indices = r.round_robin_indices := rfl

@[simp] lemma setNM_interval (r : ADPRouter) (id : String) (nm : NarrowModel) :
    (setNM r id nm).health_check_interval = r.health_check_interval := rfl

lemma regLookup_setNM (r : ADPRouter) (id : String) (nm : NarrowModel) (id2 : String) :
    regLookup (setNM r id nm).nm_registry id2 =
      if id2 = id then some nm else regLookup r.nm_registry id2 :=
  regLookup_insert _ _ _ _

lemma loadOf_setNM (r : ADPRouter) (id : String) (nm : NarrowModel) (id2 : String) :
    loadOf (setNM r id nm) id2 = if id2 = id then nm.current_load else loadOf r id2 := by
  simp only [loadOf, regLookup_setNM]
  by_cases h : id2 = id
  · rw [if_pos h, if_pos h]
  · rw [if_neg h, if_neg h]

/-! ### `perform_health_check` preserves pools, cursors and loads -/

lemma phc_pools (r : ADPRouter) (id : String) (now : Rat) (b : Bool) :
    ((perform_health_check r id now b).1).domain_pools = r.domain_pools := by
  unfold perform_health_check
  cases regLookup r.nm_registry id <;> rfl

lemma phc_indices (r : ADPRouter) (id : String) (now : Rat) (b : Bool) :
    ((perform_health_check r id now b).1).round_robin_indices = r.round_robin_indices := by
  unfold perform_health_check
  cases regLookup r.nm_registry id <;> rfl

lemma phc_interval (r : ADPRouter) (id : String) (now : Rat) (b : Bool) :
    ((perform_health_check r id now b).1).health_check_interval = r.health_check_interval := by
  unfold perform_health_check
  cases regLookup r.nm_registry id <;> rfl

lemma phc_lookup (r : ADPRouter) (id : String) (now : Rat) (b : Bool) (nm : NarrowModel)
    (h : regLookup r.nm_registry id = some nm) (id2 : String) :
    regLookup ((perform_health_check r id now b).1).nm_registry id2 =
      if id2 = id then
        some { nm with
          status :=
            if b ∧ nm.current_load < nm.max_concurrent then NMStatus.HEALTHY
            else if b then NMStatus.DEGRADED else NMStatus.UNAVAILABLE,
          last_health_check := now }
      else regLookup r.nm_registry id2 := by
  unfold perform_health_check
  rw [h]
  exact regLookup_insert _ _ _ _

lemma phc_loadOf (r : ADPRouter) (id : String) (now : Rat) (b : Bool) (id2 : String) :
    loadOf ((perform_health_check r id now b).1) id2 = loadOf r id2 := by
  unfold perform_health_check
  cases h : regLookup r.nm_registry id with
  | none => rfl
  | some nm =>
    simp only [loadOf, regLookup_insert]
    by_cases h2 : id2 = id
    · subst h2; rw [if_pos rfl, h]
    · rw [if_neg h2]

lemma phc_isSome (r : ADPRouter) (id : String) (now : Rat) (b : Bool) (id2 : String)
    (h : (regLookup r.nm_registry id2).isSome) :
    (regLookup ((perform_health_check r id now b).1).nm_registry id2).isSome := by
  unfold perform_health_check
  cases hl : regLookup r.nm_registry id with
  | none => exact h
  | some nm => exact regLookup_insert_isSome _ _ _ _ h

/-! ### `healthyScan` preservation -/

lemma healthyScan_spec (env : Env) (pool : List String) : ∀ (r : ADPRouter) (h : Nat),
    (healthyScan env pool r h).2.1.domain_pools = r.domain_pools ∧
    (healthyScan env pool r h).2.1.round_robin_indices = r.round_robin_indices ∧
    (healthyScan env pool r h).2.1.health_check_interval = r.health_check_interval ∧
    (∀ id, loadOf (healthyScan env pool r h).2.1 id = loadOf r id) ∧
    (∀ id, (regLookup r.nm_registry id).isSome →
      (regLookup (healthyScan env pool r h).2.1.nm_registry id).isSome) ∧
    (∀ id, id ∈ (healthyScan env pool r h).1 →
      (regLookup (healthyScan env pool r h).2.1.nm_registry id).isSome) := by
  induction pool with
  | nil =>
    intro r h
    simp [healthyScan]
  | cons a rest ih =>
    intro r h
    rw [healthyScan]
    cases hl : regLookup r.nm_registry a with
    | none => exact ih r h
    | some nm =>
      have main : ∀ (r1 : ADPRouter) (h1 : Nat),
          r1.domain_pools = r.domain_pools →
          r1.round_robin_indices = r.round_robin_indices →
          r1.health_check_interval = r.health_check_interval →
          (∀ id, loadOf r1 id = loadOf r id) →
          (∀ id, (regLookup r.nm_registry id).isSome →
            (regLookup r1.nm_registry id).isSome) →
          ∀ keep : Bool,
          (keep = true → (regLookup r1.nm_registry a).isSome) →
          ((if keep then a :: (healthyScan env rest r1 h1).1
            else (healthyScan env rest r1 h1).1,
            (healthyScan env rest r1 h1).2.1,
            (healthyScan env rest r1 h1).2.2).2.1.domain_pools = r.domain_pools ∧
           (if keep then a :: (healthyScan env rest r1 h1).1
            else (healthyScan env rest r1 h1).1,
            (healthyScan env rest r1 h1).2.1,
            (healthyScan env rest r1 h1).2.2).2.1.round_robin_indices =
              r.round_robin_indices ∧
           (if keep then a :: (healthyScan env rest r1 h1).1
            else (healthyScan env rest r1 h1).1,
            (healthyScan env rest r1 h1).2.1,
            (healthyScan env rest r1 h1).2.2).2.1.health_check_interval =
              r.health_check_interval ∧
           (∀ id, loadOf (if keep then a :: (healthyScan env rest r1 h1).1
            else (healthyScan env rest r1 h1).1,
            (healthyScan env rest r1 h1).2.1,
            (healthyScan env rest r1 h1).2.2).2.1 id = loadOf r id) ∧
           (∀ id, (regLookup r.nm_registry id).isSome →
             (regLookup (if keep then a :: (healthyScan env rest r1 h1).1
              else (healthyScan env rest r1 h1).1,
              (healthyScan env rest r1 h1).2.1,
              (healthyScan env rest r1 h1).2.2).2.1.nm_registry id).isSome) ∧
           (∀ id, id ∈ (if keep then a :: (healthyScan env rest r1 h1).1
            else (healthyScan env rest r1 h1).1,
            (healthyScan env rest r1 h1).2.1,
            (healthyScan env rest r1 h1).2.2).1 →
             (regLookup (if keep then a :: (healthyScan env rest r1 h1).1
              else (healthyScan env rest r1 h1).1,
              (healthyScan env rest r1 h1).2.1,
              (healthyScan env rest r1 h1).2.2).2.1.nm_registry id).isSome)) := by
        intro r1 h1 hpools hidx hint hload hsome keep hkeep
        obtain ⟨p1, p2, p3, p4, p5, p6⟩ := ih r1 h1
        refine ⟨by simp only [p1, hpools], by simp only [p2, hidx],
                by simp only [p3, hint],
                fun id => by rw [p4 id, hload id],
                fun id hs => p5 id (hsome id hs), ?_⟩
        intro id hid
        cases keep with
        | false => exact p6 id hid
        | true =>
          rcases List.mem_cons.1 (by simpa using hid) with hida | hida
          · subst hida
            exact p5 id (hkeep rfl)
          · exact p6 id hida
      by_cases hst : env.now - nm.last_health_check > r.health_check_interval
      · simp only [if_pos hst]
        refine main _ _ (phc_pools r a env.now (env.reachable h))
          (phc_indices r a env.now (env.reachable h))
          (phc_interval r a env.now (env.reachable h))
          (fun id => phc_loadOf r a env.now (env.reachable h) id)
          (fun id hs => phc_isSome r a env.now (env.reachable h) id hs) _ ?_
        intro hkp
        cases hl1 : regLookup
            ((perform_health_check r a env.now (env.reachable h)).1).nm_registry a with
        | none => rw [hl1] at hkp; exact absurd hkp (by simp)
        | some nm1 => simp [hl1]
      · simp only [if_neg hst]
        refine main r h rfl rfl rfl (fun _ => rfl) (fun _ hs => hs) _ ?_
        intro hkp
        cases hl1 : regLookup r.nm_registry a with
        | none => rw [hl1] at hkp; exact absurd hkp (by simp)
        | some nm1 => simp [hl1]

/-! ### `round_robin_selection` basic lemmas -/

lemma rr_registry (r : ADPRouter) (ids : List String) (d : Domain) :
    ((round_robin_selection r ids d).2).nm_registry = r.nm_registry := by
  unfold round_robin_selection
  split <;> rfl

lemma rr_pools (r : ADPRouter) (ids : List String) (d : Domain) :
    ((round_robin_selection r ids d).2).domain_pools = r.domain_pools := by
  unfold round_robin_selection
  split <;> rfl

lemma rr_interval (r : ADPRouter) (ids : List String) (d : Domain) :
    ((round_robin_selection r ids d).2).health_check_interval =
      r.health_check_interval := by
  unfold round_robin_selection
  split <;> rfl

lemma rr_fst_mem (r : ADPRouter) (ids : List String) (d : Domain) (x : String)
    (h : (round_robin_selection r ids d).1 = some x) : x ∈ ids := by
  unfold round_robin_selection at h
  split at h
  · exact absurd h (by simp)
  · exact List.get?_mem h

lemma rr_fst_some (r : ADPRouter) (ids : List String) (d : Domain) (h : ids ≠ []) :
    ∃ x, (round_robin_selection r ids d).1 = some x ∧ x ∈ ids := by
  have hlen : 0 < ids.length := List.length_pos.2 h
  have hmem : ∀ n, n < ids.length → ∃ x, ids.get? n = some x ∧ x ∈ ids := by
    intro n hn
    cases hg : ids.get? n with
    | none => rw [List.get?_eq_none] at hg; omega
    | some x => exact ⟨x, rfl, List.get?_mem hg⟩
  unfold round_robin_selection
  rw [if_neg (by simpa [List.isEmpty_iff] using h)]
  dsimp only
  by_cases hc : r.round_robin_indices d ≥ ids.length
  · rw [if_pos hc]; exact hmem 0 hlen
  · rw [if_neg hc]; exact hmem _ (by omega)

/-! ### `calculate_weighted_selection` lemmas -/

lemma weightsOf_keys (reg : List (String × NarrowModel)) :
    ∀ (ids : List String) (wc : List (String × Rat)),
      weightsOf reg ids = some wc → wc.map Prod.fst = ids := by
  intro ids
  induction ids with
  | nil =>
    intro wc h
    simp only [weightsOf, Option.some.injEq] at h
    subst h; rfl
  | cons a rest ih =>
    intro wc h
    rw [weightsOf] at h
    cases hl : regLookup reg a <;> rw [hl] at h
    · exact absurd h (by simp)
    case some nm =>
      cases hr : weightsOf reg rest <;> rw [hr] at h
      · exact absurd h (by simp)
      case some ws =>
        simp only [Option.some.injEq] at h
        subst h
        simp [ih ws hr]

lemma walkSel_mem : ∀ (wc : List (String × Rat)) (rv cum : Rat) (x : String),
    walkSel wc rv cum = some x → x ∈ wc.map Prod.fst := by
  intro wc
  induction wc with
  | nil => intro rv cum x h; simp [walkSel] at h
  | cons p rest ih =>
    intro rv cum x h
    obtain ⟨pid, pw⟩ := p
    rw [walkSel] at h
    split at h
    · simp only [Option.some.injEq] at h
      subst h; simp
    · simp only [List.map_cons]
      exact List.mem_cons_of_mem _ (ih rv (cum + pw) x h)

lemma getLast?_mem : ∀ (l : List (String × Rat)) (p : String × Rat),
    l.getLast? = some p → p ∈ l := by
  intro l
  induction l with
  | nil => intro p h; simp at h
  | cons a rest ih =>
    intro p h
    cases rest with
    | nil => simp at h; subst h; simp
    | cons b t =>
      rw [List.getLast?_cons_cons] at h
      exact List.mem_cons_of_mem _ (ih p h)

lemma getLast?_some_of_ne_nil : ∀ (l : List (String × Rat)), l ≠ [] →
    ∃ p, l.getLast? = some p := by
  intro l
  induction l with
  | nil => intro h; exact absurd rfl h
  | cons a rest ih =>
    intro _
    cases rest with
    | nil => exact ⟨a, rfl⟩
    | cons b t =>
      obtain ⟨p, hp⟩ := ih (by simp)
      exact ⟨p, by rw [List.getLast?_cons_cons]; exact hp⟩

/-- Any successful weighted selection on a nonempty list returns a member;
on the empty list it returns the inner `none`. -/
lemma weighted_result (r : ADPRouter) (ids : List String) (rv : Rat) (c : Nat)
    (op : Option String)
    (h : calculate_weighted_selection r ids rv c = some op) :
    (ids = [] ∧ op = none) ∨ ∃ x, op = some x ∧ x ∈ ids := by
  unfold calculate_weighted_selection at h
  by_cases he : ids.isEmpty
  · rw [if_pos he] at h
    simp only [Option.some.injEq] at h
    exact Or.inl ⟨List.isEmpty_iff.1 he, h.symm⟩
  · rw [if_neg he] at h
    have hne : ids ≠ [] := fun hh => he (by simp [hh])
    have hlen : 0 < ids.length := List.length_pos.2 hne
    cases hw : weightsOf r.nm_registry ids <;> rw [hw] at h
    · exact absurd h (by simp)
    next wc =>
      have hkeys := weightsOf_keys r.nm_registry ids wc hw
      dsimp only at h
      by_cases ht : (wc.map Prod.snd).sum = 0
      · rw [if_pos ht] at h
        simp only [Option.some.injEq] at h
        cases hg : ids.get? (c % ids.length) with
        | none =>
          rw [List.get?_eq_none] at hg
          have := Nat.mod_lt c hlen
          omega
        | some x =>
          right
          exact ⟨x, by rw [← h, hg], List.get?_mem hg⟩
      · rw [if_neg ht] at h
        cases hwalk : walkSel wc rv 0 <;> rw [hwalk] at h
        · have hwc : wc ≠ [] := by
            intro hwc
            rw [hwc] at hkeys
            exact hne (by simpa using hkeys.symm)
          obtain ⟨p, hp⟩ := getLast?_some_of_ne_nil wc hwc
          rw [hp] at h
          simp only [Option.map_some', Option.some.injEq] at h
          right
          refine ⟨p.1, h.symm, ?_⟩
          have hpm : p ∈ wc := getLast?_mem wc p hp
          rw [← hkeys]
          exact List.mem_map_of_mem Prod.fst hpm
        · next x =>
          simp only [Option.some.injEq] at h
          right
          refine ⟨x, h.symm, ?_⟩
          have := walkSel_mem wc rv 0 x hwalk
          rwa [hkeys] at this

/-- Under registered candidates, the weight list is defined. -/
lemma weightsOf_isSome (reg : List (String × NarrowModel)) :
    ∀ (ids : List String), (∀ id ∈ ids, (regLookup reg id).isSome) →
      ∃ wc, weightsOf reg ids = some wc := by
  intro ids
  induction ids with
  | nil => intro _; exact ⟨[], rfl⟩
  | cons a rest ih =>
    intro hreg
    have ha := hreg a (by simp)
    cases hl : regLookup reg a with
    | none => rw [hl] at ha; exact absurd ha (by simp)
    | some nm =>
      obtain ⟨ws, hws⟩ := ih (fun id hid => hreg id (List.mem_cons_of_mem _ hid))
      exact ⟨(a, effectiveWeight nm) :: ws, by rw [weightsOf, hl, hws]⟩

/-! ### Validation-loop lemmas -/

lemma valLoop_spec (env : Env) (r : ADPRouter) (mv : Nat) :
    ∀ (fuel i : Nat) (validators candidates vs' : List String) (i' : Nat),
      valLoop env r mv fuel i validators candidates = some (vs', i') →
      (∃ t, vs' = validators ++ t ∧ ∀ v ∈ t, v ∈ candidates) ∧
      (validators.Nodup → vs'.Nodup) ∧
      (validators.length ≤ mv → vs'.length ≤ mv) := by
  intro fuel
  induction fuel with
  | zero =>
    intro i validators candidates vs' i' h
    simp only [valLoop, Option.some.injEq, Prod.mk.injEq] at h
    obtain ⟨hv, _⟩ := h
    subst hv
    exact ⟨⟨[], by simp⟩, fun hd => hd, fun hl => hl⟩
  | succ fuel ihn =>
    intro i validators candidates vs' i' h
    rw [valLoop] at h
    by_cases hlt : validators.length < min mv candidates.length
    · rw [if_pos hlt] at h
      cases hw : calculate_weighted_selection r candidates (env.unif i) (env.choiceF i) <;>
        rw [hw] at h
      · exact absurd h (by simp)
      next op =>
        cases op with
        | none =>
          simp only [Option.some.injEq, Prod.mk.injEq] at h
          obtain ⟨hv, _⟩ := h
          subst hv
          exact ⟨⟨[], by simp⟩, fun hd => hd, fun hl => hl⟩
        | some v =>
          dsimp only at h
          by_cases hv : v ≠ "" ∧ v ∉ validators
          · rw [if_pos hv] at h
            have hmv : validators.length < mv :=
              Nat.lt_of_lt_of_le hlt (Nat.min_le_left mv candidates.length)
            have hvmem : v ∈ candidates := by
              rcases weighted_result r candidates (env.unif i) (env.choiceF i)
                  (some v) hw with ⟨_, hob⟩ | ⟨x, hx, hxm⟩
              · exact absurd hob (by simp)
              · simp only [Option.some.injEq] at hx
                rwa [hx]
            have hrec := ihn (i + 1) (validators ++ [v]) (candidates.erase v) vs' i' h
            obtain ⟨⟨t, ht, htm⟩, hnd, hlen⟩ := hrec
            refine ⟨⟨v :: t, by rw [ht, List.append_assoc]; rfl, ?_⟩, ?_, ?_⟩
            · intro w hw2
              rcases List.mem_cons.1 hw2 with hw2 | hw2
              · subst hw2; exact hvmem
              · exact List.erase_subset _ _ (htm w hw2)
            · intro hnd0
              refine hnd ?_
              rw [List.nodup_append]
              exact ⟨hnd0, List.nodup_singleton v,
                fun a ha hb => hv.2 (by rwa [List.mem_singleton.1 hb] at ha)⟩
            · intro hl0
              refine hlen ?_
              simp only [List.length_append, List.length_cons, List.length_nil]
              omega
          · rw [if_neg hv] at h
            simp only [Option.some.injEq, Prod.mk.injEq] at h
            obtain ⟨hveq, _⟩ := h
            subst hveq
            exact ⟨⟨[], by simp⟩, fun hd => hd, fun hl => hl⟩
    · rw [if_neg hlt] at h
      simp only [Option.some.injEq, Prod.mk.injEq] at h
      obtain ⟨hveq, _⟩ := h
      subst hveq
      exact ⟨⟨[], by simp⟩, fun hd => hd, fun hl => hl⟩

lemma valLoop_main (env : Env) (r : ADPRouter) (mv fuel i : Nat)
    (candidates vs' : List String) (i' : Nat)
    (h : valLoop env r mv fuel i [] candidates = some (vs', i')) :
    vs'.Nodup ∧ vs'.length ≤ mv ∧ ∀ v ∈ vs', v ∈ candidates := by
  obtain ⟨⟨t, ht, htm⟩, hnd, hlen⟩ :=
    valLoop_spec env r mv fuel i [] candidates vs' i' h
  rw [List.nil_append] at ht
  subst ht
  exact ⟨hnd List.nodup_nil, hlen (by simp), htm⟩

/-! ### `_select_validation_nms` specification -/

lemma select_validation_spec (env : Env) (r : ADPRouter) (h i : Nat)
    (req : RoutingRequest) (exclude : List String) (mv : Nat)
    (vs : List String) (r3 : ADPRouter) (h3 i3 : Nat)
    (hsel : select_validation_nms env r h i req exclude mv = some (vs, r3, h3, i3)) :
    vs.Nodup ∧ vs.length ≤ mv ∧
    (∀ v ∈ vs, v ∉ exclude ∧ (regLookup r3.nm_registry v).isSome) ∧
    r3.domain_pools = r.domain_pools ∧
    r3.round_robin_indices = r.round_robin_indices ∧
    r3.health_check_interval = r.health_check_interval ∧
    (∀ id, loadOf r3 id = loadOf r id) ∧
    (∀ id, (regLookup r.nm_registry id).isSome →
      (regLookup r3.nm_registry id).isSome) := by
  unfold select_validation_nms get_healthy_nms_in_domain at hsel
  obtain ⟨hp1, hp2, hp3, hp4, hp5, hp6⟩ :=
    healthyScan_spec env (r.domain_pools req.domain) r h
  dsimp only at hsel
  split at hsel
  · simp only [Option.some.injEq, Prod.mk.injEq] at hsel
    obtain ⟨hvs, hr3, _, _⟩ := hsel
    subst hvs; subst hr3
    exact ⟨List.nodup_nil, by simp, fun v hv => absurd hv (by simp),
      hp1, hp2, hp3, hp4, hp5⟩
  · cases hv : valLoop env
        (healthyScan env (r.domain_pools req.domain) r h).2.1 mv mv i []
        ((healthyScan env (r.domain_pools req.domain) r h).1.filter
          (fun id => !exclude.contains id)) <;> rw [hv] at hsel
    · exact absurd hsel (by simp)
    next p =>
      obtain ⟨vsx, i1⟩ := p
      simp only [Option.some.injEq, Prod.mk.injEq] at hsel
      obtain ⟨hvs, hr3, _, _⟩ := hsel
      subst hvs; subst hr3
      obtain ⟨hnd, hlen, hmem⟩ := valLoop_main _ _ _ _ _ _ _ _ hv
      refine ⟨hnd, hlen, ?_, hp1, hp2, hp3, hp4, hp5⟩
      intro v hvv
      have hvf := hmem v hvv
      rw [List.mem_filter] at hvf
      obtain ⟨hin, hnc⟩ := hvf
      refine ⟨?_, hp6 v hin⟩
      intro hcontra
      have hc : exclude.contains v = true := List.elem_iff.2 hcontra
      rw [hc] at hnc
      exact absurd hnc (by simp)

/-! ### Load-increment lemmas -/

lemma loadOf_congr (r r' : ADPRouter) (h : r'.nm_registry = r.nm_registry)
    (id : String) : loadOf r' id = loadOf r id := by
  unfold loadOf
  rw [h]

lemma incrLoadGuarded_pools (r : ADPRouter) (v : String) :
    (incrLoadGuarded r v).domain_pools = r.domain_pools := by
  unfold incrLoadGuarded
  cases regLookup r.nm_registry v <;> rfl

lemma incrLoadGuarded_indices (r : ADPRouter) (v : String) :
    (incrLoadGuarded r v).round_robin_indices = r.round_robin_indices := by
  unfold incrLoadGuarded
  cases regLookup r.nm_registry v <;> rfl

lemma incrLoadGuarded_interval (r : ADPRouter) (v : String) :
    (incrLoadGuarded r v).health_check_interval = r.health_check_interval := by
  unfold incrLoadGuarded
  cases regLookup r.nm_registry v <;> rfl

lemma incrLoadGuarded_isSome (r : ADPRouter) (v id : String)
    (h : (regLookup r.nm_registry id).isSome) :
    (regLookup (incrLoadGuarded r v).nm_registry id).isSome := by
  unfold incrLoadGuarded
  cases regLookup r.nm_registry v with
  | none => exact h
  | some nm => exact regLookup_insert_isSome _ _ _ _ h

lemma incrLoadGuarded_load_ne (r : ADPRouter) (v id : String) (hne : id ≠ v) :
    loadOf (incrLoadGuarded r v) id = loadOf r id := by
  unfold incrLoadGuarded
  cases regLookup r.nm_registry v with
  | none => rfl
  | some nm => rw [loadOf_setNM, if_neg hne]

lemma incrLoadGuarded_load_self (r : ADPRouter) (v : String)
    (h : (regLookup r.nm_registry v).isSome) :
    loadOf (incrLoadGuarded r v) v = loadOf r v + 1 := by
  unfold incrLoadGuarded
  cases hl : regLookup r.nm_registry v with
  | none => rw [hl] at h; exact absurd h (by simp)
  | some nm =>
    rw [loadOf_setNM, if_pos rfl]
    unfold loadOf
    rw [hl]

lemma foldIncr_pools (validation : List String) : ∀ r : ADPRouter,
    (validation.foldl incrLoadGuarded r).domain_pools = r.domain_pools := by
  induction validation with
  | nil => intro r; rfl
  | cons a rest ih =>
    intro r
    rw [List.foldl_cons, ih, incrLoadGuarded_pools]

lemma foldIncr_indices (validation : List String) : ∀ r : ADPRouter,
    (validation.foldl incrLoadGuarded r).round_robin_indices =
      r.round_robin_indices := by
  induction validation with
  | nil => intro r; rfl
  | cons a rest ih =>
    intro r
    rw [List.foldl_cons, ih, incrLoadGuarded_indices]

lemma foldIncr_interval (validation : List String) : ∀ r : ADPRouter,
    (validation.foldl incrLoadGuarded r).health_check_interval =
      r.health_check_interval := by
  induction validation with
  | nil => intro r; rfl
  | cons a rest ih =>
    intro r
    rw [List.foldl_cons, ih, incrLoadGuarded_interval]

lemma foldIncr_isSome (validation : List String) : ∀ (r : ADPRouter) (id : String),
    (regLookup r.nm_registry id).isSome →
    (regLookup (validation.foldl incrLoadGuarded r).nm_registry id).isSome := by
  induction validation with
  | nil => intro r id h; exact h
  | cons a rest ih =>
    intro r id h
    rw [List.foldl_cons]
    exact ih _ id (incrLoadGuarded_isSome r a id h)

lemma foldIncr_load_notmem (validation : List String) : ∀ (r : ADPRouter) (id : String),
    id ∉ validation →
    loadOf (validation.foldl incrLoadGuarded r) id = loadOf r id := by
  induction validation with
  | nil => intro r id _; rfl
  | cons a rest ih =>
    intro r id hnm
    rw [List.foldl_cons, ih _ id (fun hh => hnm (List.mem_cons_of_mem _ hh)),
      incrLoadGuarded_load_ne r a id (fun hh => hnm (hh ▸ List.mem_cons_self a rest))]

lemma foldIncr_load_mem (validation : List String) : ∀ (r : ADPRouter),
    validation.Nodup →
    (∀ v ∈ validation, (regLookup r.nm_registry v).isSome) →
    ∀ v ∈ validation,
      loadOf (validation.foldl incrLoadGuarded r) v = loadOf r v + 1 := by
  induction validation with
  | nil => intro r _ _ v hv; exact absurd hv (by simp)
  | cons a rest ih =>
    intro r hnd hreg v hv
    rw [List.foldl_cons]
    have hna : a ∉ rest := (List.nodup_cons.1 hnd).1
    rcases List.mem_cons.1 hv with hva | hvr
    · subst hva
      rw [foldIncr_load_notmem rest _ v hna,
        incrLoadGuarded_load_self r v (hreg v (List.mem_cons_self v rest))]
    · have hvna : v ≠ a := fun hh => hna (hh ▸ hvr)
      rw [ih _ (List.nodup_cons.1 hnd).2
        (fun w hw => incrLoadGuarded_isSome r a w (hreg w (List.mem_cons_of_mem _ hw)))
        v hvr, incrLoadGuarded_load_ne r a v hvna]

/-! ### `applyLoads` specification -/

lemma applyLoads_spec (r : ADPRouter) (primary : Option String)
    (validation : List String) (r4 : ADPRouter)
    (hnd : validation.Nodup)
    (hreg : ∀ v ∈ validation, (regLookup r.nm_registry v).isSome)
    (hnp : ∀ p, primary = some p → p ∉ validation)
    (h : applyLoads r primary validation = some r4) :
    (∀ p, primary = some p → p ≠ "" → loadOf r4 p = loadOf r p + 1) ∧
    (∀ v ∈ validation, loadOf r4 v = loadOf r v + 1) ∧
    (∀ w, primary ≠ some w → w ∉ validation → loadOf r4 w = loadOf r w) ∧
    r4.domain_pools = r.domain_pools ∧
    (∀ id, (regLookup r.nm_registry id).isSome →
      (regLookup r4.nm_registry id).isSome) := by
  unfold applyLoads at h
  cases primary with
  | none =>
    dsimp only at h
    simp only [Option.map_some', Option.some.injEq] at h
    subst h
    refine ⟨fun p hp => absurd hp (by simp), foldIncr_load_mem validation r hnd hreg,
      fun w _ hw => foldIncr_load_notmem validation r w hw,
      foldIncr_pools validation r, fun id hs => foldIncr_isSome validation r id hs⟩
  | some p =>
    dsimp only at h
    by_cases hp : p = ""
    · rw [if_pos hp] at h
      simp only [Option.map_some', Option.some.injEq] at h
      subst h
      refine ⟨fun q hq hq2 => absurd (hp ▸ (Option.some.injEq _ _ ▸ hq : p = q).symm) hq2,
        foldIncr_load_mem validation r hnd hreg,
        fun w _ hw => foldIncr_load_notmem validation r w hw,
        foldIncr_pools validation r, fun id hs => foldIncr_isSome validation r id hs⟩
    · rw [if_neg hp] at h
      cases hl : regLookup r.nm_registry p <;> rw [hl] at h
      · exact absurd h (by simp)
      next nm =>
        simp only [Option.map_some', Option.some.injEq] at h
        subst h
        have hpn : p ∉ validation := hnp p rfl
        have hload1 : loadOf (setNM r p { nm with current_load := nm.current_load + 1 }) p =
            loadOf r p + 1 := by
          rw [loadOf_setNM, if_pos rfl]
          unfold loadOf
          rw [hl]
        have hloadne : ∀ w, w ≠ p →
            loadOf (setNM r p { nm with current_load := nm.current_load + 1 }) w =
              loadOf r w := by
          intro w hw
          rw [loadOf_setNM, if_neg hw]
        have hsome1 : ∀ id, (regLookup r.nm_registry id).isSome →
            (regLookup (setNM r p
              { nm with current_load := nm.current_load + 1 }).nm_registry id).isSome := by
          intro id hs
          exact regLookup_insert_isSome _ _ _ _ hs
        refine ⟨?_, ?_, ?_, ?_, ?_⟩
        · intro q hq _
          have hq' : q = p := by
            simpa using hq.symm
          subst hq'
          rw [foldIncr_load_notmem validation _ q hpn, hload1]
        · intro v hv
          have hvp : v ≠ p := fun hh => hpn (hh ▸ hv)
          rw [foldIncr_load_mem validation _ hnd
            (fun w hw => hsome1 w (hreg w hw)) v hv, hloadne v hvp]
        · intro w hwp hwv
          have hwp' : w ≠ p := fun hh => hwp (by rw [hh])
          rw [foldIncr_load_notmem validation _ w hwv, hloadne w hwp']
        · rw [foldIncr_pools]
          rfl
        · intro id hs
          exact foldIncr_isSome validation _ id (hsome1 id hs)

/-! ### `selectPrimary` specification -/

lemma selectPrimary_spec (env : Env) (r : ADPRouter) (i : Nat) (priority : String)
    (domain : Domain) (available : List String)
    (primary : Option String) (method : String) (r2 : ADPRouter) (i2 : Nat)
    (hne : available ≠ [])
    (h : selectPrimary env r i priority domain available =
      some (primary, method, r2, i2)) :
    r2.nm_registry = r.nm_registry ∧
    r2.domain_pools = r.domain_pools ∧
    (method = "weighted_urgent" ∨ method = "hybrid_high" ∨
     method = "round_robin_normal") ∧
    (∃ p, primary = some p ∧ p ∈ available) := by
  unfold selectPrimary at h
  by_cases hu : priority = "urgent"
  · rw [if_pos hu] at h
    cases hw : calculate_weighted_selection r available (env.unif i) (env.choiceF i) <;>
      rw [hw] at h
    · exact absurd h (by simp)
    next op =>
      simp only [Option.some.injEq, Prod.mk.injEq] at h
      obtain ⟨hop, hm, hr2, _⟩ := h
      subst hop; subst hr2
      refine ⟨rfl, rfl, Or.inl hm.symm, ?_⟩
      rcases weighted_result r available _ _ op hw with ⟨hemp, _⟩ | ⟨x, hx, hxm⟩
      · exact absurd hemp hne
      · exact ⟨x, hx, hxm⟩
  · rw [if_neg hu] at h
    by_cases hh : priority = "high"
    · rw [if_pos hh] at h
      dsimp only at h
      cases hrr : (round_robin_selection r available domain).1 <;> rw [hrr] at h
      · exact absurd h (by simp)
      next rrc =>
        cases hw1 : calculate_weighted_selection (round_robin_selection r available domain).2
            available (env.unif i) (env.choiceF i) <;> rw [hw1] at h
        · exact absurd h (by simp)
        next op1 =>
          cases op1 with
          | none => exact absurd h (by simp)
          | some wc =>
            dsimp only at h
            cases hw2 : calculate_weighted_selection (round_robin_selection r available domain).2
                (if wc = rrc then [rrc] else [rrc, wc])
                (env.unif (i + 1)) (env.choiceF (i + 1)) <;> rw [hw2] at h
            · exact absurd h (by simp)
            next op2 =>
              simp only [Option.some.injEq, Prod.mk.injEq] at h
              obtain ⟨hop, hm, hr2, _⟩ := h
              subst hop; subst hr2
              refine ⟨rr_registry r available domain, rr_pools r available domain,
                Or.inr (Or.inl hm.symm), ?_⟩
              have hrrc : rrc ∈ available := rr_fst_mem r available domain rrc hrr
              have hwc : wc ∈ available := by
                rcases weighted_result _ available _ _ (some wc) hw1 with ⟨_, hob⟩ | ⟨x, hx, hxm⟩
                · exact absurd hob (by simp)
                · simp only [Option.some.injEq] at hx
                  rwa [hx]
              have htop : ∀ x ∈ (if wc = rrc then [rrc] else [rrc, wc]), x ∈ available := by
                intro x hx
                split at hx
                · rw [List.mem_singleton.1 hx]; exact hrrc
                · rcases List.mem_cons.1 hx with hx | hx
                  · rw [hx]; exact hrrc
                  · rw [List.mem_singleton.1 hx]; exact hwc
              rcases weighted_result _ _ _ _ op2 hw2 with ⟨hemp, _⟩ | ⟨x, hx, hxm⟩
              · exact absurd hemp (by split <;> simp)
              · exact ⟨x, hx, htop x hxm⟩
    · rw [if_neg hh] at h
      dsimp only at h
      simp only [Option.some.injEq, Prod.mk.injEq] at h
      obtain ⟨hop, hm, hr2, _⟩ := h
      subst hop; subst hr2
      obtain ⟨p, hp, hpm⟩ := rr_fst_some r available domain hne
      exact ⟨rr_registry r available domain, rr_pools r available domain,
        Or.inr (Or.inr hm.symm), p, hp, hpm⟩

/-! ### `routeMain` and `route_request` specifications -/

lemma routeMain_spec (env : Env) (r : ADPRouter) (h i : Nat) (req : RoutingRequest)
    (res : RouteResult) (r' : ADPRouter) (h' i' : Nat)
    (hroute : routeMain env r h i req = some (res, r', h', i')) :
    res.validation.Nodup ∧ res.validation.length ≤ 2 ∧
    (∀ p, res.primary = some p → p ∉ res.validation) ∧
    r'.domain_pools = r.domain_pools ∧
    (∀ id, (regLookup r.nm_registry id).isSome →
      (regLookup r'.nm_registry id).isSome) ∧
    (res.routing_method = "no_available_nms" ∨ res.routing_method = "weighted_urgent" ∨
     res.routing_method = "hybrid_high" ∨ res.routing_method = "round_robin_normal") ∧
    (∀ p, res.primary = some p → p ≠ "" → loadOf r' p = loadOf r p + 1) ∧
    (∀ v ∈ res.validation, loadOf r' v = loadOf r v + 1) ∧
    (∀ w, res.primary ≠ some w → w ∉ res.validation → loadOf r' w = loadOf r w) ∧
    (res.primary = none → ∀ w, loadOf r' w = loadOf r w) ∧
    (res.routing_method = "no_available_nms" → res.primary = none ∧
      res.validation = [] ∧
      res.error = some ("No healthy NMs available in domain " ++ req.domain.val)) := by
  unfold routeMain get_healthy_nms_in_domain at hroute
  obtain ⟨q1, q2, q3, q4, q5, q6⟩ := healthyScan_spec env (r.domain_pools req.domain) r h
  dsimp only at hroute
  split at hroute
  · -- empty candidate pool
    simp only [Option.some.injEq, Prod.mk.injEq] at hroute
    obtain ⟨hres, hr', _, _⟩ := hroute
    subst hres; subst hr'
    refine ⟨List.nodup_nil, by simp, fun p hp => by simp at hp, q1, q5, Or.inl rfl,
      fun p hp => by simp at hp, fun v hv => absurd hv (by simp),
      fun w _ _ => q4 w, fun _ w => q4 w, fun _ => ⟨rfl, rfl, rfl⟩⟩
  · next hne =>
    have hne1 : (healthyScan env (r.domain_pools req.domain) r h).1 ≠ [] := by
      intro hcon
      exact hne (by simp [hcon])
    cases hsp : selectPrimary env (healthyScan env (r.domain_pools req.domain) r h).2.1 i
        req.priority req.domain
        (healthyScan env (r.domain_pools req.domain) r h).1 <;> rw [hsp] at hroute
    · exact absurd hroute (by simp)
    next q =>
      obtain ⟨primary, method, r2, i2⟩ := q
      obtain ⟨sp1, sp2, spm, p0, hp0, hp0m⟩ :=
        selectPrimary_spec env _ i req.priority req.domain _ primary method r2 i2 hne1 hsp
      subst hp0
      dsimp only at hroute
      have hmeth : method ≠ "no_available_nms" := by
        rcases spm with hm | hm | hm <;> rw [hm] <;> decide
      have hload2 : ∀ id, loadOf r2 id = loadOf r id :=
        fun id => (loadOf_congr _ r2 sp1 id).trans (q4 id)
      have hsome2 : ∀ id, (regLookup r.nm_registry id).isSome →
          (regLookup r2.nm_registry id).isSome := by
        intro id hs
        rw [sp1]
        exact q5 id hs
      have hpools2 : r2.domain_pools = r.domain_pools := sp2.trans q1
      have main : ∀ (vnms : List String) (r3 : ADPRouter),
          vnms.Nodup → vnms.length ≤ 2 →
          (∀ v ∈ vnms, v ≠ p0 ∧ (regLookup r3.nm_registry v).isSome) →
          r3.domain_pools = r.domain_pools →
          (∀ id, loadOf r3 id = loadOf r id) →
          (∀ id, (regLookup r.nm_registry id).isSome →
            (regLookup r3.nm_registry id).isSome) →
          ∀ (h3x i3x : Nat),
          (match applyLoads r3 (some p0) vnms with
           | none => none
           | some r4 =>
             some ({ primary := some p0, validation := vnms, routing_method := method,
                     total_available :=
                       some (healthyScan env (r.domain_pools req.domain) r h).1.length },
                   r4, h3x, i3x)) = some (res, r', h', i') →
          (res.validation.Nodup ∧ res.validation.length ≤ 2 ∧
           (∀ p, res.primary = some p → p ∉ res.validation) ∧
           r'.domain_pools = r.domain_pools ∧
           (∀ id, (regLookup r.nm_registry id).isSome →
             (regLookup r'.nm_registry id).isSome) ∧
           (res.routing_method = "no_available_nms" ∨
            res.routing_method = "weighted_urgent" ∨
            res.routing_method = "hybrid_high" ∨
            res.routing_method = "round_robin_normal") ∧
           (∀ p, res.primary = some p → p ≠ "" → loadOf r' p = loadOf r p + 1) ∧
           (∀ v ∈ res.validation, loadOf r' v = loadOf r v + 1) ∧
           (∀ w, res.primary ≠ some w → w ∉ res.validation →
             loadOf r' w = loadOf r w) ∧
           (res.primary = none → ∀ w, loadOf r' w = loadOf r w) ∧
           (res.routing_method = "no_available_nms" → res.primary = none ∧
             res.validation = [] ∧
             res.error =
               some ("No healthy NMs available in domain " ++ req.domain.val))) := by
        intro vnms r3 hnd hlen hex hpools hloads hsome h3x i3x hm
        cases hal : applyLoads r3 (some p0) vnms <;> rw [hal] at hm
        · exact absurd hm (by simp)
        next r4 =>
          simp only [Option.some.injEq, Prod.mk.injEq] at hm
          obtain ⟨hres, hr', _, _⟩ := hm
          subst hres; subst hr'
          obtain ⟨a1, a2, a3, a4, a5⟩ := applyLoads_spec r3 (some p0) vnms r4 hnd
            (fun v hv => (hex v hv).2)
            (fun p hp => by
              have hpp : p = p0 := by simpa using hp.symm
              subst hpp
              intro hmem
              exact (hex p hmem).1 rfl) hal
          refine ⟨hnd, hlen, ?_, a4.trans hpools, fun id hs => a5 id (hsome id hs),
            ?_, ?_, ?_, ?_, ?_, fun hmm => absurd hmm hmeth⟩
          · intro p hp hmem
            have hpp : p = p0 := by simpa using hp.symm
            subst hpp
            exact (hex p hmem).1 rfl
          · rcases spm with hm | hm | hm
            · exact Or.inr (Or.inl hm)
            · exact Or.inr (Or.inr (Or.inl hm))
            · exact Or.inr (Or.inr (Or.inr hm))
          · intro p hp hpne
            have hpp : p = p0 := by simpa using hp.symm
            subst hpp
            rw [a1 p rfl hpne, hloads p]
          · intro v hv
            rw [a2 v hv, hloads v]
          · intro w hwp hwv
            rw [a3 w hwp hwv, hloads w]
          · intro hpn
            exact absurd hpn (by simp)
      by_cases hrv : req.require_validation = true
      · rw [if_pos hrv] at hroute
        cases hsel : select_validation_nms env r2
            (healthyScan env (r.domain_pools req.domain) r h).2.2 i2 req [p0] 2 <;>
          rw [hsel] at hroute
        · exact absurd hroute (by simp)
        next t =>
          obtain ⟨vnms, r3, h3x, i3x⟩ := t
          obtain ⟨v1, v2, v3, v4, _, _, v7, v8⟩ :=
            select_validation_spec env r2 _ i2 req [p0] 2 vnms r3 h3x i3x hsel
          refine main vnms r3 v1 v2 ?_ (v4.trans hpools2)
            (fun id => (v7 id).trans (hload2 id))
            (fun id hs => v8 id (hsome2 id hs)) h3x i3x hroute
          intro v hv
          obtain ⟨hvx, hvs⟩ := v3 v hv
          exact ⟨fun hh => hvx (hh ▸ List.mem_singleton_self p0), hvs⟩
      · rw [if_neg hrv] at hroute
        dsimp only at hroute
        exact main [] r2 List.nodup_nil (by simp) (fun v hv => absurd hv (by simp))
          hpools2 hload2 hsome2 _ _ hroute

lemma route_spec (env : Env) (r : ADPRouter) (h i : Nat) (req : RoutingRequest)
    (res : RouteResult) (r' : ADPRouter) (h' i' : Nat)
    (hroute : route_request env r h i req = some (res, r', h', i')) :
    res.validation.Nodup ∧ res.validation.length ≤ 2 ∧
    (∀ p, res.primary = some p → p ∉ res.validation) ∧
    r'.domain_pools = r.domain_pools ∧
    (∀ id, (regLookup r.nm_registry id).isSome →
      (regLookup r'.nm_registry id).isSome) ∧
    ((res.routing_method = "preferred_with_validation" ∨
      res.routing_method = "preferred_only") → ∀ w, loadOf r' w = loadOf r w) ∧
    (res.routing_method ≠ "preferred_with_validation" →
     res.routing_method ≠ "preferred_only" →
      ((∀ p, res.primary = some p → p ≠ "" → loadOf r' p = loadOf r p + 1) ∧
       (∀ v ∈ res.validation, loadOf r' v = loadOf r v + 1) ∧
       (∀ w, res.primary ≠ some w → w ∉ res.validation →
         loadOf r' w = loadOf r w) ∧
       (res.primary = none → ∀ w, loadOf r' w = loadOf r w))) := by
  unfold route_request at hroute
  have fromMain : routeMain env r h i req = some (res, r', h', i') →
      (res.validation.Nodup ∧ res.validation.length ≤ 2 ∧
       (∀ p, res.primary = some p → p ∉ res.validation) ∧
       r'.domain_pools = r.domain_pools ∧
       (∀ id, (regLookup r.nm_registry id).isSome →
         (regLookup r'.nm_registry id).isSome) ∧
       ((res.routing_method = "preferred_with_validation" ∨
         res.routing_method = "preferred_only") → ∀ w, loadOf r' w = loadOf r w) ∧
       (res.routing_method ≠ "preferred_with_validation" →
        res.routing_method ≠ "preferred_only" →
         ((∀ p, res.primary = some p → p ≠ "" → loadOf r' p = loadOf r p + 1) ∧
          (∀ v ∈ res.validation, loadOf r' v = loadOf r v + 1) ∧
          (∀ w, res.primary ≠ some w → w ∉ res.validation →
            loadOf r' w = loadOf r w) ∧
          (res.primary = none → ∀ w, loadOf r' w = loadOf r w)))) := by
    intro hm
    obtain ⟨m1, m2, m3, m4, m5, m6, m7, m8, m9, m10, _⟩ :=
      routeMain_spec env r h i req res r' h' i' hm
    have hne1 : res.routing_method ≠ "preferred_with_validation" := by
      rcases m6 with hx | hx | hx | hx <;> rw [hx] <;> decide
    have hne2 : res.routing_method ≠ "preferred_only" := by
      rcases m6 with hx | hx | hx | hx <;> rw [hx] <;> decide
    refine ⟨m1, m2, m3, m4, m5, ?_, fun _ _ => ⟨m7, m8, m9, m10⟩⟩
    intro hpref
    rcases hpref with hx | hx
    · exact absurd hx hne1
    · exact absurd hx hne2
  cases hpref : req.preferred_nm_id with
  | none =>
    rw [hpref] at hroute
    exact fromMain hroute
  | some pid =>
    rw [hpref] at hroute
    dsimp only at hroute
    by_cases hpe : pid = ""
    · rw [if_pos hpe] at hroute
      exact fromMain hroute
    · rw [if_neg hpe] at hroute
      cases hlk : regLookup r.nm_registry pid <;> rw [hlk] at hroute
      · exact fromMain hroute
      next nm =>
        dsimp only at hroute
        by_cases hst : nm.status = NMStatus.HEALTHY ∨ nm.status = NMStatus.DEGRADED
        · rw [if_pos hst] at hroute
          by_cases hrv : req.require_validation = true
          · rw [if_pos hrv] at hroute
            cases hsel : select_validation_nms env r h i req [pid] 2 <;>
              rw [hsel] at hroute
            · exact absurd hroute (by simp)
            next t =>
              obtain ⟨vnms, r1, h1, i1⟩ := t
              obtain ⟨v1, v2, v3, v4, _, _, v7, v8⟩ :=
                select_validation_spec env r h i req [pid] 2 vnms r1 h1 i1 hsel
              simp only [Option.some.injEq, Prod.mk.injEq] at hroute
              obtain ⟨hres, hr', _, _⟩ := hroute
              subst hres; subst hr'
              refine ⟨v1, v2, ?_, v4, v8, fun _ w => v7 w, fun hx1 _ => absurd rfl hx1⟩
              intro p hp hmem
              have hpp : p = pid := by simpa using hp.symm
              subst hpp
              exact (v3 p hmem).1 (List.mem_singleton_self p)
          · rw [if_neg hrv] at hroute
            simp only [Option.some.injEq, Prod.mk.injEq] at hroute
            obtain ⟨hres, hr', _, _⟩ := hroute
            subst hres; subst hr'
            exact ⟨List.nodup_nil, by simp, fun p _ hmem => by simp at hmem, rfl,
              fun id hs => hs, fun _ w => rfl, fun _ hne2 => absurd rfl hne2⟩
        · rw [if_neg hst] at hroute
          exact fromMain hroute

/-! ### Remaining helper lemmas -/

lemma healthyScan_unavailable (env : Env) (hreach : ∀ k, env.reachable k = false) :
    ∀ (pool : List String) (r : ADPRouter) (h : Nat),
      (∀ id ∈ pool, ∀ nm, regLookup r.nm_registry id = some nm →
        nm.status = NMStatus.UNAVAILABLE) →
      (healthyScan env pool r h).1 = [] := by
  intro pool
  induction pool with
  | nil => intro r h _; rfl
  | cons a rest ih =>
    intro r h hall
    rw [healthyScan]
    cases hl : regLookup r.nm_registry a with
    | none => exact ih r h (fun id hid => hall id (List.mem_cons_of_mem _ hid))
    | some nm =>
      have main : ∀ (r1 : ADPRouter) (h1 : Nat),
          (∀ id ∈ a :: rest, ∀ nm2, regLookup r1.nm_registry id = some nm2 →
            nm2.status = NMStatus.UNAVAILABLE) →
          ((if (match regLookup r1.nm_registry a with
               | some nm1 =>
                 nm1.status == NMStatus.HEALTHY || nm1.status == NMStatus.DEGRADED
               | none => false) = true
            then a :: (healthyScan env rest r1 h1).1
            else (healthyScan env rest r1 h1).1,
            (healthyScan env rest r1 h1).2.1,
            (healthyScan env rest r1 h1).2.2).1 = []) := by
        intro r1 h1 hall1
        have htail : (healthyScan env rest r1 h1).1 = [] :=
          ih r1 h1 (fun id hid => hall1 id (List.mem_cons_of_mem _ hid))
        dsimp only
        rw [htail]
        cases hl1 : regLookup r1.nm_registry a with
        | none => simp
        | some nm1 =>
          have h1s : nm1.status = NMStatus.UNAVAILABLE :=
            hall1 a (List.mem_cons_self a rest) nm1 hl1
          simp [h1s]
      by_cases hst : env.now - nm.last_health_check > r.health_check_interval
      · simp only [if_pos hst]
        rw [hreach h]
        refine main _ _ ?_
        intro id hid nm2 hl2
        rw [phc_lookup r a env.now false nm hl id] at hl2
        split at hl2
        · have hn2 : nm2 = { nm with
              status :=
                if (false : Bool) ∧ nm.current_load < nm.max_concurrent then
                  NMStatus.HEALTHY
                else if (false : Bool) then NMStatus.DEGRADED
                else NMStatus.UNAVAILABLE,
              last_health_check := env.now } := by
            injection hl2.symm
          rw [hn2]
          rfl
        · exact hall id hid nm2 hl2
      · simp only [if_neg hst]
        exact main r h hall

lemma complete_request_load_self (r : ADPRouter) (id : String) :
    loadOf (complete_request r id) id = loadOf r id - 1 := by
  unfold complete_request
  cases hl : regLookup r.nm_registry id with
  | none => simp [loadOf, hl]
  | some nm =>
    rw [loadOf_setNM, if_pos rfl]
    unfold loadOf
    rw [hl]

lemma countP_keys (healthyP : NarrowModel → Bool) :
    ∀ (reg : List (String × NarrowModel)), (reg.map Prod.fst).Nodup →
      (reg.map Prod.fst).countP (fun id =>
        match regLookup reg id with
        | some nm => healthyP nm
        | none => false) =
      reg.countP (fun p => healthyP p.2) := by
  intro reg
  induction reg with
  | nil => intro _; rfl
  | cons p rest ih =>
    intro hnd
    obtain ⟨k, nm⟩ := p
    simp only [List.map_cons, List.nodup_cons] at hnd
    obtain ⟨hk, hndr⟩ := hnd
    rw [List.map_cons, List.countP_cons, List.countP_cons]
    have hhead : (match regLookup ((k, nm) :: rest) k with
        | some nm => healthyP nm
        | none => false) = healthyP nm := by
      rw [regLookup_cons]
      simp
    have htail : (List.map Prod.fst rest).countP (fun id =>
        match regLookup ((k, nm) :: rest) id with
        | some nm => healthyP nm
        | none => false) =
        (List.map Prod.fst rest).countP (fun id =>
          match regLookup rest id with
          | some nm => healthyP nm
          | none => false) := by
      refine List.countP_congr ?_
      intro id hid
      have hne : k ≠ id := fun hh => hk (hh ▸ hid)
      rw [regLookup_cons, if_neg (by simpa [beq_iff_eq] using hne)]
    rw [htail, ih hndr]
    rw [hhead]

lemma register_preserves (r : ADPRouter) (nm : NarrowModel)
    (hp : PoolsRegistered r) : PoolsRegistered (register_nm r nm) := by
  intro d id hid
  unfold register_nm at hid ⊢
  dsimp only at hid ⊢
  rw [regLookup_insert]
  by_cases hida : id = nm.id
  · rw [if_pos hida]; rfl
  · rw [if_neg hida]
    split at hid
    · next hd =>
      split at hid
      · exact hp nm.domain id hid
      · rcases List.mem_append.1 hid with hid | hid
        · exact hp nm.domain id hid
        · exact absurd (List.mem_singleton.1 hid) hida
    · exact hp d id hid

lemma complete_preserves (r : ADPRouter) (id0 : String)
    (hp : PoolsRegistered r) : PoolsRegistered (complete_request r id0) := by
  unfold complete_request
  cases hl : regLookup r.nm_registry id0 with
  | none => exact hp
  | some nm =>
    intro d id hid
    rw [setNM_domain_pools] at hid
    exact regLookup_insert_isSome _ _ _ _ (hp d id hid)

lemma route_preserves (env : Env) (r : ADPRouter) (h i : Nat) (req : RoutingRequest)
    (res : RouteResult) (r' : ADPRouter) (h' i' : Nat)
    (hroute : route_request env r h i req = some (res, r', h', i'))
    (hp : PoolsRegistered r) : PoolsRegistered r' := by
  obtain ⟨_, _, _, hpools, hsome, _⟩ :=
    route_spec env r h i req res r' h' i' hroute
  intro d id hid
  rw [hpools] at hid
  exact hsome id (hp d id hid)

/-! ### Claim theorems -/

/-- Claim C1, counterexample: routing a request whose preferred worker `a`
is Healthy returns a decision with primary `a`, yet the load of `a` is 1
both before and after the call, so the claimed increment-by-1 fails on the
preferred-worker path (the code returns before its load-tracking block). -/
theorem c1_counterexample :
    (route_request env0 rP 0 0 reqP).map
      (fun t => (t.1.primary, loadOf t.2.1 "a")) = some (some "a", 1) ∧
    loadOf rP "a" = 1 :=
  ⟨by with_unfolding_all rfl, by with_unfolding_all rfl⟩

/-- Claim C1, amended: on the non-preferred routing paths `route_request`
increments `current_load` by exactly 1 for the primary worker (when its id
is truthy) and for each validation worker, leaves every other load
unchanged, and increments nothing when the decision has no primary; the
preferred-worker paths perform no load increment at all. -/
theorem c1_load_accounting (env : Env) (r : ADPRouter) (h i : Nat)
    (req : RoutingRequest) (res : RouteResult) (r' : ADPRouter) (h' i' : Nat)
    (hroute : route_request env r h i req = some (res, r', h', i')) :
    ((res.routing_method = "preferred_with_validation" ∨
      res.routing_method = "preferred_only") → ∀ w, loadOf r' w = loadOf r w) ∧
    (res.routing_method ≠ "preferred_with_validation" →
     res.routing_method ≠ "preferred_only" →
      ((∀ p, res.primary = some p → p ≠ "" → loadOf r' p = loadOf r p + 1) ∧
       (∀ v ∈ res.validation, loadOf r' v = loadOf r v + 1) ∧
       (∀ w, res.primary ≠ some w → w ∉ res.validation →
         loadOf r' w = loadOf r w) ∧
       (res.primary = none → ∀ w, loadOf r' w = loadOf r w))) := by
  obtain ⟨_, _, _, _, _, c6, c7⟩ := route_spec env r h i req res r' h' i' hroute
  exact ⟨c6, c7⟩

/-- Witness for the amended C1: the concrete round-robin routing of `req0`
over workers `a`, `b` increments both the primary `a` and the validator
`b` by exactly 1. -/
theorem c1_load_accounting_witness :
    loadOf r0x "a" = loadOf r0 "a" + 1 ∧ loadOf r0x "b" = loadOf r0 "b" + 1 := by
  have hroute : route_request env0 r0 0 0 req0 = some (res0, r0x, h0x, i0x) := by
    with_unfolding_all rfl
  have hthm := c1_load_accounting env0 r0 0 0 req0 res0 r0x h0x i0x hroute
  have h2 := hthm.2 (by with_unfolding_all decide) (by with_unfolding_all decide)
  exact ⟨h2.1 "a" (by with_unfolding_all decide) (by with_unfolding_all decide),
    h2.2.1 "b" (by with_unfolding_all decide)⟩

/-- Claim C2, counterexample: after routing to preferred worker `a` (whose
load was 1 and is not incremented), `complete_request` drops the load to
0, not back to its pre-route value 1, so the round-trip fails on the
preferred-worker path. -/
theorem c2_counterexample :
    (route_request env0 rP 0 0 reqP).map
      (fun t => (t.1.primary, loadOf (complete_request t.2.1 "a") "a")) =
      some (some "a", 0) ∧
    loadOf rP "a" = 1 :=
  ⟨by with_unfolding_all rfl, by with_unfolding_all rfl⟩

/-- Claim C2, amended: for every decision produced by a non-preferred
routing path, one `complete_request` per touched worker (the truthy
primary and every validation worker) restores that worker's
`current_load` to its pre-route value. -/
theorem c2_roundtrip (env : Env) (r : ADPRouter) (h i : Nat)
    (req : RoutingRequest) (res : RouteResult) (r' : ADPRouter) (h' i' : Nat)
    (hroute : route_request env r h i req = some (res, r', h', i'))
    (hm1 : res.routing_method ≠ "preferred_with_validation")
    (hm2 : res.routing_method ≠ "preferred_only") :
    (∀ p, res.primary = some p → p ≠ "" →
      loadOf (complete_request r' p) p = loadOf r p) ∧
    (∀ v ∈ res.validation, loadOf (complete_request r' v) v = loadOf r v) := by
  obtain ⟨_, _, _, _, _, _, c7⟩ := route_spec env r h i req res r' h' i' hroute
  obtain ⟨p1, p2, _, _⟩ := c7 hm1 hm2
  constructor
  · intro p hp hpe
    rw [complete_request_load_self, p1 p hp hpe]
    omega
  · intro v hv
    rw [complete_request_load_self, p2 v hv]
    omega

/-- Witness for the amended C2: completing the primary `a` and the
validator `b` of the concrete round-robin routing restores both loads. -/
theorem c2_roundtrip_witness :
    loadOf (complete_request r0x "a") "a" = loadOf r0 "a" ∧
    loadOf (complete_request r0x "b") "b" = loadOf r0 "b" := by
  have hroute : route_request env0 r0 0 0 req0 = some (res0, r0x, h0x, i0x) := by
    with_unfolding_all rfl
  have hthm := c2_roundtrip env0 r0 0 0 req0 res0 r0x h0x i0x hroute
    (by with_unfolding_all decide) (by with_unfolding_all decide)
  exact ⟨hthm.1 "a" (by with_unfolding_all decide) (by with_unfolding_all decide),
    hthm.2 "b" (by with_unfolding_all decide)⟩

/-- Claim C3: every decision returned by `route_request` has a validation
list without duplicates, of length at most 2 (the default
`max_validators`), and never containing the primary worker. -/
theorem c3_validation_set (env : Env) (r : ADPRouter) (h i : Nat)
    (req : RoutingRequest) (res : RouteResult) (r' : ADPRouter) (h' i' : Nat)
    (hroute : route_request env r h i req = some (res, r', h', i')) :
    res.validation.Nodup ∧ res.validation.length ≤ 2 ∧
    (∀ p, res.primary = some p → p ∉ res.validation) := by
  obtain ⟨a, b, c, _⟩ := route_spec env r h i req res r' h' i' hroute
  exact ⟨a, b, c⟩

/-- Witness for C3 on the concrete routing of `req0`: the validation list
is duplicate-free, within the bound, and omits the primary `a`. -/
theorem c3_validation_set_witness :
    res0.validation.Nodup ∧ res0.validation.length ≤ 2 ∧
    "a" ∉ res0.validation := by
  have hthm := c3_validation_set env0 r0 0 0 req0 res0 r0x h0x i0x
    (by with_unfolding_all rfl)
  exact ⟨hthm.1, hthm.2.1, hthm.2.2 "a" (by with_unfolding_all decide)⟩

/-- Claim C9: weighted selection over a single registered candidate of
nonzero effective weight returns that candidate for every outcome of the
random draw. -/
theorem c9_single_candidate (r : ADPRouter) (a : String) (nm : NarrowModel)
    (rv : Rat) (c : Nat)
    (hl : regLookup r.nm_registry a = some nm)
    (hw : effectiveWeight nm ≠ 0) :
    calculate_weighted_selection r [a] rv c = some (some a) := by
  unfold calculate_weighted_selection
  rw [if_neg (by simp)]
  have hwc : weightsOf r.nm_registry [a] = some [(a, effectiveWeight nm)] := by
    rw [weightsOf, hl]
    rfl
  rw [hwc]
  dsimp only
  rw [if_neg (by simpa using hw)]
  rw [walkSel]
  by_cases hle : rv ≤ 0 + effectiveWeight nm
  · rw [if_pos hle]
  · rw [if_neg hle]
    rfl

/-- Witness for C9: the single healthy worker `a` with effective weight
one half is selected. -/
theorem c9_single_candidate_witness :
    calculate_weighted_selection r1w ["a"] 0 0 = some (some "a") :=
  c9_single_candidate r1w "a" nmA 0 0 (by with_unfolding_all rfl)
    (by with_unfolding_all decide)

/-- Claim C10: in every reachable router state, every worker id in any
domain pool is a key of the registry; the reachability relation closes
the initial state under `register_nm`, `route_request` and
`complete_request` (`get_routing_stats` reads the state without
modifying it). -/
theorem c10_pool_registry_invariant (r : ADPRouter) (hr : Reachable r) :
    PoolsRegistered r := by
  induction hr with
  | init =>
    intro d id hid
    exact absurd hid (List.not_mem_nil id)
  | register r nm _ ih => exact register_preserves r nm ih
  | route r env h i req res r' h' i' _ hroute ih =>
    exact route_preserves env r h i req res r' h' i' hroute ih
  | complete r id _ ih => exact complete_preserves r id ih

/-- Witness for C10: in the reachable one-worker state, the pooled id `a`
is a registry key. -/
theorem c10_pool_registry_invariant_witness :
    (regLookup r1w.nm_registry "a").isSome := by
  have hr : Reachable r1w := Reachable.register ADPRouter.init nmA Reachable.init
  exact c10_pool_registry_invariant r1w hr Domain.MEDICAL "a"
    (by with_unfolding_all decide)

lemma selectPrimary_else (env : Env) (r1 : ADPRouter) (i1 : Nat) (pri : String)
    (dom : Domain) (avail : List String)
    (h1 : pri ≠ "urgent") (h2 : pri ≠ "high") :
    selectPrimary env r1 i1 pri dom avail =
      some ((round_robin_selection r1 avail dom).1, "round_robin_normal",
            (round_robin_selection r1 avail dom).2, i1) := by
  unfold selectPrimary
  rw [if_neg h1, if_neg h2]

/-- Claim C4: for a nonempty candidate list, `round_robin_selection`
returns the candidate at the domain cursor (reset to 0 first when the
cursor is out of range), advances the cursor to `(position + 1) % len`,
leaves the cursors of other domains unchanged, is itself unaffected by
calls for other domains, and from a fresh cursor over `[a, b, c]` yields
`a`, then `b`, then `c`, then `a` again. -/
theorem c4_round_robin (r : ADPRouter) (ids : List String) (d : Domain)
    (hne : ids ≠ []) :
    ((round_robin_selection r ids d).1 =
      ids.get? (if r.round_robin_indices d ≥ ids.length then 0
                else r.round_robin_indices d) ∧
     ((round_robin_selection r ids d).2).round_robin_indices d =
       ((if r.round_robin_indices d ≥ ids.length then 0
         else r.round_robin_indices d) + 1) % ids.length) ∧
    (∀ d2, d2 ≠ d →
      ((round_robin_selection r ids d).2).round_robin_indices d2 =
        r.round_robin_indices d2) ∧
    (∀ (d2 : Domain) (ids2 : List String), d2 ≠ d →
      ((round_robin_selection r ids2 d2).2).round_robin_indices d =
        r.round_robin_indices d) ∧
    (∀ a b c, ids = [a, b, c] → r.round_robin_indices d = 0 →
      (round_robin_selection r ids d).1 = some a ∧
      (round_robin_selection (round_robin_selection r ids d).2 ids d).1 = some b ∧
      (round_robin_selection (round_robin_selection
        (round_robin_selection r ids d).2 ids d).2 ids d).1 = some c ∧
      (round_robin_selection (round_robin_selection (round_robin_selection
        (round_robin_selection r ids d).2 ids d).2 ids d).2 ids d).1 = some a) := by
  have hie : ¬(ids.isEmpty = true) := fun hh => hne (List.isEmpty_iff.1 hh)
  refine ⟨⟨?_, ?_⟩, ?_, ?_, ?_⟩
  · unfold round_robin_selection
    rw [if_neg hie]
  · unfold round_robin_selection
    rw [if_neg hie]
    dsimp only
    rw [if_pos rfl]
  · intro d2 hd2
    unfold round_robin_selection
    rw [if_neg hie]
    dsimp only
    rw [if_neg hd2]
  · intro d2 ids2 hd2
    unfold round_robin_selection
    by_cases hie2 : ids2.isEmpty = true
    · rw [if_pos hie2]
    · rw [if_neg hie2]
      dsimp only
      rw [if_neg (fun hh : d = d2 => hd2 hh.symm)]
  · intro a b c hids hidx
    subst hids
    refine ⟨?_, ?_, ?_, ?_⟩ <;>
      simp [round_robin_selection, hidx, List.get?]

/-- Witness for C4: a single step over the fresh three-candidate list in
the initial router returns the head and advances the cursor to 1. -/
theorem c4_round_robin_witness :
    (round_robin_selection ADPRouter.init ["x", "y", "z"] Domain.MEDICAL).1 =
      some "x" ∧
    ((round_robin_selection ADPRouter.init ["x", "y", "z"]
      Domain.MEDICAL).2).round_robin_indices Domain.MEDICAL = 1 := by
  have hthm := c4_round_robin ADPRouter.init ["x", "y", "z"] Domain.MEDICAL
    (by decide)
  exact ⟨hthm.1.1.trans (by rfl), hthm.1.2.trans (by rfl)⟩

/-- Claim C5: on a nonempty list of registered candidates, weighted
selection always returns some member of the list, and when the total
effective weight is exactly 0 it returns the uniform-random choice
`ids.get? (c % ids.length)` given by the `random.choice` oracle. -/
theorem c5_weighted_fallback (r : ADPRouter) (ids : List String) (rv : Rat)
    (c : Nat) (hne : ids ≠ [])
    (hreg : ∀ id ∈ ids, (regLookup r.nm_registry id).isSome) :
    (∃ x ∈ ids, calculate_weighted_selection r ids rv c = some (some x)) ∧
    (∀ wc, weightsOf r.nm_registry ids = some wc →
      (wc.map Prod.snd).sum = 0 →
      calculate_weighted_selection r ids rv c =
        some (ids.get? (c % ids.length))) := by
  obtain ⟨wc, hwc⟩ := weightsOf_isSome r.nm_registry ids hreg
  have hie : ¬(ids.isEmpty = true) := fun hh => hne (List.isEmpty_iff.1 hh)
  constructor
  · have hsome : ∃ op, calculate_weighted_selection r ids rv c = some op := by
      unfold calculate_weighted_selection
      rw [if_neg hie, hwc]
      dsimp only
      by_cases ht : (wc.map Prod.snd).sum = 0
      · rw [if_pos ht]
        exact ⟨_, rfl⟩
      · rw [if_neg ht]
        cases walkSel wc rv 0
        · exact ⟨_, rfl⟩
        · exact ⟨_, rfl⟩
    obtain ⟨op, hop⟩ := hsome
    rcases weighted_result r ids rv c op hop with ⟨hemp, _⟩ | ⟨x, hx, hxm⟩
    · exact absurd hemp hne
    · exact ⟨x, hxm, by rw [hop, hx]⟩
  · intro wc2 hwc2 htot
    unfold calculate_weighted_selection
    rw [if_neg hie, hwc2]
    dsimp only
    rw [if_pos htot]

/-- Witness for C5: two registered workers of base weight 0 give total
effective weight 0, and the selection falls back to the uniform choice,
here index `1 % 2` picking worker `b`. -/
theorem c5_weighted_fallback_witness :
    calculate_weighted_selection rZ ["a", "b"] 0 1 = some (some "b") := by
  have hthm := c5_weighted_fallback rZ ["a", "b"] 0 1 (by decide)
    (by with_unfolding_all decide)
  have h2 := hthm.2 [("a", effectiveWeight nmZa), ("b", effectiveWeight nmZb)]
    (by with_unfolding_all rfl) (by with_unfolding_all decide)
  rw [h2]
  with_unfolding_all rfl

/-- Claim C6: when the preferred worker is ineligible, every worker of the
target domain pool is Unavailable (and the reachability oracle keeps any
refreshed worker unreachable), `route_request` returns, without raising,
a decision with no primary, method `no_available_nms` and the explanatory
error message. -/
theorem c6_no_candidates (env : Env) (r : ADPRouter) (h i : Nat)
    (req : RoutingRequest)
    (hpref : preferredIneligible r req)
    (hall : ∀ id ∈ r.domain_pools req.domain, ∀ nm,
      regLookup r.nm_registry id = some nm → nm.status = NMStatus.UNAVAILABLE)
    (hreach : ∀ k, env.reachable k = false) :
    ∃ r' h', route_request env r h i req =
      some ({ primary := none, validation := [],
              routing_method := "no_available_nms",
              error :=
                some ("No healthy NMs available in domain " ++ req.domain.val) },
            r', h', i) := by
  have hscan := healthyScan_unavailable env hreach (r.domain_pools req.domain) r h hall
  have hmain : ∃ r' h', routeMain env r h i req =
      some ({ primary := none, validation := [],
              routing_method := "no_available_nms",
              error :=
                some ("No healthy NMs available in domain " ++ req.domain.val) },
            r', h', i) := by
    unfold routeMain get_healthy_nms_in_domain
    dsimp only
    refine ⟨(healthyScan env (r.domain_pools req.domain) r h).2.1,
      (healthyScan env (r.domain_pools req.domain) r h).2.2, ?_⟩
    rw [if_pos (by rw [hscan]; rfl)]
  unfold route_request
  cases hprefv : req.preferred_nm_id with
  | none => exact hmain
  | some pid =>
    dsimp only
    by_cases hpe : pid = ""
    · rw [if_pos hpe]
      exact hmain
    · rw [if_neg hpe]
      cases hlk : regLookup r.nm_registry pid with
      | none => exact hmain
      | some nm =>
        dsimp only
        have hstat := hpref pid hprefv hpe nm hlk
        rw [if_neg (by rw [hstat]; decide)]
        exact hmain

/-- Witness for C6: the router whose only medical worker is Unavailable
routes `req0` (no preferred worker) to the no-candidates decision. -/
theorem c6_no_candidates_witness :
    (route_request envF rU 0 0 req0).map (fun t => (t.1, t.2.2.2)) =
      some ({ primary := none, validation := [],
              routing_method := "no_available_nms",
              error := some "No healthy NMs available in domain medical" }, 0) := by
  have hall : ∀ id ∈ rU.domain_pools req0.domain, ∀ nm,
      regLookup rU.nm_registry id = some nm →
      nm.status = NMStatus.UNAVAILABLE := by
    intro id hid nm hl
    have hpool : rU.domain_pools req0.domain = ["a"] := by with_unfolding_all rfl
    rw [hpool] at hid
    have hid' : id = "a" := by simpa using hid
    subst hid'
    have hlu : regLookup rU.nm_registry "a" = some nmU := by with_unfolding_all rfl
    rw [hlu] at hl
    injection hl with h2
    rw [← h2]
    with_unfolding_all rfl
  obtain ⟨r', h', he⟩ := c6_no_candidates envF rU 0 0 req0
    (fun pid hp => absurd hp (by rw [show req0.preferred_nm_id = none from rfl]; simp))
    hall (fun k => rfl)
  rw [he]
  rfl

/-- Claim C7: a request whose priority is neither `urgent` nor `high`
routes exactly like the same request with priority `normal`, and (when
the preferred shortcut does not fire) its decision is either the
no-candidates decision or carries method `round_robin_normal` with the
primary produced by round-robin over all candidates. -/
theorem c7_unrecognized_priority (env : Env) (r : ADPRouter) (h i : Nat)
    (req : RoutingRequest)
    (hp1 : req.priority ≠ "urgent") (hp2 : req.priority ≠ "high") :
    route_request env r h i req =
      route_request env r h i { req with priority := "normal" } ∧
    (preferredIneligible r req →
      ∀ res r' h' i', route_request env r h i req = some (res, r', h', i') →
        res.routing_method = "no_available_nms" ∨
        (res.routing_method = "round_robin_normal" ∧
         res.primary = (round_robin_selection
            (get_healthy_nms_in_domain env r h req.domain).2.1
            (get_healthy_nms_in_domain env r h req.domain).1 req.domain).1)) := by
  obtain ⟨mid, dom, pri, pref, rv⟩ := req
  have hp1' : pri ≠ "urgent" := hp1
  have hp2' : pri ≠ "high" := hp2
  have hsp : ∀ (r1 : ADPRouter) (i1 : Nat) (avail : List String),
      selectPrimary env r1 i1 pri dom avail =
        selectPrimary env r1 i1 "normal" dom avail := by
    intro r1 i1 avail
    rw [selectPrimary_else env r1 i1 pri dom avail hp1' hp2',
      selectPrimary_else env r1 i1 "normal" dom avail (by decide) (by decide)]
  have hrm : routeMain env r h i ⟨mid, dom, pri, pref, rv⟩ =
      routeMain env r h i ⟨mid, dom, "normal", pref, rv⟩ := by
    unfold routeMain
    dsimp only
    rw [hsp]
    rfl
  constructor
  · show route_request env r h i ⟨mid, dom, pri, pref, rv⟩ =
        route_request env r h i ⟨mid, dom, "normal", pref, rv⟩
    unfold route_request
    dsimp only
    cases pref with
    | none => exact hrm
    | some pid =>
      dsimp only
      by_cases hpe : pid = ""
      · rw [if_pos hpe, if_pos hpe]
        exact hrm
      · rw [if_neg hpe, if_neg hpe]
        cases regLookup r.nm_registry pid with
        | none => exact hrm
        | some nm =>
          dsimp only
          by_cases hst : nm.status = NMStatus.HEALTHY ∨ nm.status = NMStatus.DEGRADED
          · rw [if_pos hst, if_pos hst]
            rfl
          · rw [if_neg hst, if_neg hst]
            exact hrm
  · intro hpref res r' h' i' hroute
    have hmain : routeMain env r h i ⟨mid, dom, pri, pref, rv⟩ =
        some (res, r', h', i') := by
      unfold route_request at hroute
      cases pref with
      | none => exact hroute
      | some pid =>
        dsimp only at hroute
        by_cases hpe : pid = ""
        · rwa [if_pos hpe] at hroute
        · rw [if_neg hpe] at hroute
          cases hlk : regLookup r.nm_registry pid with
          | none => rwa [hlk] at hroute
          | some nm =>
            rw [hlk] at hroute
            dsimp only at hroute
            have hstat := hpref pid rfl hpe nm hlk
            rwa [if_neg (by rw [hstat]; decide)] at hroute
    unfold routeMain get_healthy_nms_in_domain at hmain
    dsimp only at hmain
    split at hmain
    · simp only [Option.some.injEq, Prod.mk.injEq] at hmain
      obtain ⟨hres, _⟩ := hmain
      subst hres
      exact Or.inl rfl
    · rw [selectPrimary_else env _ i pri dom _ hp1' hp2'] at hmain
      dsimp only at hmain
      by_cases hrv : rv = true
      · rw [if_pos hrv] at hmain
        split at hmain
        · exact absurd hmain (by simp)
        · split at hmain
          · exact absurd hmain (by simp)
          · simp only [Option.some.injEq, Prod.mk.injEq] at hmain
            obtain ⟨hres, _⟩ := hmain
            subst hres
            exact Or.inr ⟨rfl, rfl⟩
      · rw [if_neg hrv] at hmain
        dsimp only at hmain
        split at hmain
        · exact absurd hmain (by simp)
        · simp only [Option.some.injEq, Prod.mk.injEq] at hmain
          obtain ⟨hres, _⟩ := hmain
          subst hres
          exact Or.inr ⟨rfl, rfl⟩

/-- Witness for C7: the unrecognized priority `weird` routes exactly like
priority `normal` on the concrete two-worker router. -/
theorem c7_unrecognized_priority_witness :
    route_request env0 r0 0 0 { req0 with priority := "weird" } =
      route_request env0 r0 0 0
        { { req0 with priority := "weird" } with priority := "normal" } :=
  (c7_unrecognized_priority env0 r0 0 0 { req0 with priority := "weird" }
    (by decide) (by decide)).1

/-- Claim C8, counterexample: after registering worker `a` under MEDICAL
and re-registering the same id under CARDIOLOGY, every registered worker
is Healthy, yet `overall_health` is reported as 2, not the
healthy/total ratio 1: the id sits in two domain pools and is counted
twice. -/
theorem c8_counterexample :
    (∀ p ∈ r8.nm_registry, p.2.status = NMStatus.HEALTHY) ∧
    (get_routing_stats r8).overall_health = 2 ∧
    (registryHealthyCount r8 : Rat) / (r8.nm_registry.length : Rat) = 1 ∧
    (2 : Rat) ≠ 1 := by
  with_unfolding_all decide

/-- Claim C8, amended: `overall_health` equals the sum over the domain
enumeration of per-pool healthy counts divided by the registered count
(0 when the registry is empty).  When every registered id occurs in the
pools exactly once (pool ids form a permutation of the duplicate-free key
list), this equals healthy-count / total-count; in particular it is 1
when every registered worker is Healthy and the registry is nonempty, and
0 when the registry is empty. -/
theorem c8_overall_health (r : ADPRouter)
    (hperm : (allPoolIds r).Perm (r.nm_registry.map Prod.fst))
    (hnd : (r.nm_registry.map Prod.fst).Nodup) :
    (get_routing_stats r).overall_health =
      (if r.nm_registry.length > 0 then
        (registryHealthyCount r : Rat) / (r.nm_registry.length : Rat)
       else 0) ∧
    ((∀ p ∈ r.nm_registry, p.2.status = NMStatus.HEALTHY) →
      r.nm_registry ≠ [] → (get_routing_stats r).overall_health = 1) ∧
    (r.nm_registry = [] → (get_routing_stats r).overall_health = 0) := by
  have h1 : ∀ d, domainStatusCount r d NMStatus.HEALTHY =
      (r.domain_pools d).countP (fun id =>
        match regLookup r.nm_registry id with
        | some nm => nm.status == NMStatus.HEALTHY
        | none => false) := by
    intro d
    rw [domainStatusCount, List.countP_eq_length_filter]
  have hcore : (Domain.all.map
      (fun d => domainStatusCount r d NMStatus.HEALTHY)).sum =
      registryHealthyCount r := by
    calc (Domain.all.map (fun d => domainStatusCount r d NMStatus.HEALTHY)).sum
        = (Domain.all.map (fun d => (r.domain_pools d).countP (fun id =>
            match regLookup r.nm_registry id with
            | some nm => nm.status == NMStatus.HEALTHY
            | none => false))).sum := by
          simp only [h1]
      _ = ((Domain.all.map r.domain_pools).map (List.countP (fun id =>
            match regLookup r.nm_registry id with
            | some nm => nm.status == NMStatus.HEALTHY
            | none => false))).sum := by
          rw [List.map_map]
          rfl
      _ = (allPoolIds r).countP (fun id =>
            match regLookup r.nm_registry id with
            | some nm => nm.status == NMStatus.HEALTHY
            | none => false) := by
          rw [allPoolIds, List.countP_flatten]
      _ = (r.nm_registry.map Prod.fst).countP (fun id =>
            match regLookup r.nm_registry id with
            | some nm => nm.status == NMStatus.HEALTHY
            | none => false) :=
          hperm.countP_eq _
      _ = r.nm_registry.countP (fun p => p.2.status == NMStatus.HEALTHY) :=
          countP_keys (fun nm => nm.status == NMStatus.HEALTHY) r.nm_registry hnd
      _ = registryHealthyCount r := by
          rw [registryHealthyCount, List.countP_eq_length_filter]
  refine ⟨?_, ?_, ?_⟩
  · unfold get_routing_stats
    dsimp only
    rw [hcore]
  · intro hallh hne
    unfold get_routing_stats
    dsimp only
    rw [hcore, if_pos (List.length_pos.2 hne)]
    have hfull : registryHealthyCount r = r.nm_registry.length := by
      unfold registryHealthyCount
      rw [List.filter_eq_self.2 (fun p hp => by
        rw [hallh p hp]
        rfl)]
    rw [hfull]
    rw [div_self]
    exact Nat.cast_ne_zero.2 (List.length_pos.2 hne).ne'
  · intro hempty
    unfold get_routing_stats
    dsimp only
    rw [hempty]
    rfl

/-- Witness for the amended C8: the one-worker router reports overall
health 1. -/
theorem c8_overall_health_witness :
    (get_routing_stats r1w).overall_health = 1 := by
  have hperm : (allPoolIds r1w).Perm (r1w.nm_registry.map Prod.fst) := by
    rw [show allPoolIds r1w = ["a"] from by with_unfolding_all rfl,
      show r1w.nm_registry.map Prod.fst = ["a"] from by with_unfolding_all rfl]
  have hnd : (r1w.nm_registry.map Prod.fst).Nodup := by
    with_unfolding_all decide
  exact (c8_overall_health r1w hperm hnd).2.1 (by with_unfolding_all decide)
    (by with_unfolding_all decide)

end ADP
